import Mathlib

/-
Shallow embedding of `src/form.ts` (react-state-form): a hierarchical observable
state container.  The embedding models a two-level node tree — one root
`FormState` (the "parent") and at most one registered `ChildFormState` (the
"child", a leaf) — which is the shape every verified claim speaks about.
Mutable object state becomes explicit state passing on a `World` record;
observer callbacks become events appended to a trace (callbacks are opaque to
the library, so their only observable effect here is *that* they were invoked,
with which flag); `console.log` diagnostics are omitted.  The unused
`validateOnChange` construction flag (spec section 9 calls it dead
configuration) is omitted from the record.
-/

/-- Model of the JavaScript values stored in a form: primitives, arrays and
plain objects (association lists of fields in insertion order).  Numbers are
modeled as integers; no claim involves floating point. -/
inductive JSVal where
  | null
  | bool (b : Bool)
  | num (n : Int)
  | str (s : String)
  | arr (elems : List JSVal)
  | obj (fields : List (String × JSVal))

/-- JavaScript `typeof` on a defined value.  Note `typeof null` is `"object"`. -/
def jsTypeOf : JSVal → String
  | .null => "object"
  | .bool _ => "boolean"
  | .num _ => "number"
  | .str _ => "string"
  | .arr _ => "object"
  | .obj _ => "object"

/-- JavaScript `typeof`, with `none` standing for `undefined`. -/
def jsTypeOfOpt : Option JSVal → String
  | none => "undefined"
  | some v => jsTypeOf v

/-- JavaScript strict equality `===` on defined values.  Primitives compare by
value.  Arrays and objects compare by reference; the model has no aliasing (the
library always hands freshly-built containers across the `===` checks), so two
container operands are modeled as never identical. -/
def jsStrictEq : JSVal → JSVal → Bool
  | .null, .null => true
  | .bool a, .bool b => a == b
  | .num a, .num b => a == b
  | .str a, .str b => a == b
  | _, _ => false

/-- JavaScript `===` where `none` stands for `undefined`. -/
def jsStrictEqOpt : Option JSVal → Option JSVal → Bool
  | none, none => true
  | some a, some b => jsStrictEq a b
  | _, _ => false

/-- JavaScript truthiness of a defined value. -/
def jsTruthy : JSVal → Bool
  | .null => false
  | .bool b => b
  | .num n => n != 0
  | .str s => s != ""
  | .arr _ => true
  | .obj _ => true

/-- Lookup in an insertion-ordered association list (JS property read). -/
def alGet {α : Type} : List (String × α) → String → Option α
  | [], _ => none
  | (k, v) :: rest, key => if k = key then some v else alGet rest key

/-- Write in an insertion-ordered association list (JS property write): an
existing key keeps its position, a new key is appended. -/
def alSet {α : Type} : List (String × α) → String → α → List (String × α)
  | [], key, v => [(key, v)]
  | (k, w) :: rest, key, v =>
      if k = key then (k, v) :: rest else (k, w) :: alSet rest key v

/-- Key removal (JS `delete map[key]`). -/
def alDel {α : Type} (l : List (String × α)) (key : String) : List (String × α) :=
  l.filter (fun kv => kv.1 != key)

/-- Key list of an association list (JS `Object.keys`, insertion order). -/
def alKeys {α : Type} (l : List (String × α)) : List String :=
  l.map Prod.fst

/-- Field view of a container value, as used when a composite value is handed
to a child's `setValues` or a parent error entry to a child's `setErrors`:
objects give their fields, arrays their indexed elements.  Non-containers give
no fields; the verified flows only ever pass containers here (`Object.keys` on
a primitive behaves differently in JS, but no claim exercises that). -/
def jsFields : JSVal → List (String × JSVal)
  | .obj l => l
  | .arr xs => xs.enum.map (fun p => (toString p.1, p.2))
  | _ => []

/-- Translation of `memberCopy` from `src/form.ts`: shallow-copies arrays
(`[...value]`) and anything of `typeof === "object"` (`{...value}`, which for
`null` yields the empty object), and throws otherwise.  Branch order follows
the source: `Array.isArray` first, then `typeof value === "object"`. -/
def memberCopy : JSVal → Except String JSVal
  | .arr xs => .ok (.arr xs)
  | .null => .ok (.obj [])
  | .obj l => .ok (.obj l)
  | _ => .error "Can only memberCopy() arrays and objects."

/-- Total wrapper around `memberCopy` used inside the state-update semantics
(where the source would throw on a non-container; no verified claim reaches
that case with a non-container). -/
def memberCopyT (v : JSVal) : JSVal :=
  match memberCopy v with
  | .ok c => c
  | .error _ => v

/-- Which node of the two-level world an observer event belongs to. -/
inductive NodeTag where
  | parentNode
  | childNode
deriving DecidableEq, Repr

/-- Names of the public mutators whose invocations the trace records. -/
inductive CallOp where
  | setValuesOp
  | setErrorsOp
  | setStateOp
  | setValueAt (key : String)
  | setErrorAt (key : String)
deriving DecidableEq, Repr

/-- Observable events of one mutation: a field-scoped listener invocation, an
"any" listener invocation (each carrying the `setValuesWasUsed` flag the
callback receives), or the invocation of a public mutator on a node. -/
inductive Event where
  | fieldFired (n : NodeTag) (key : String) (id : String) (bulk : Bool)
  | anyFired (n : NodeTag) (id : String) (bulk : Bool)
  | called (n : NodeTag) (op : CallOp)
deriving DecidableEq, Repr

/-- Local state of one `FormState` node: `values`, `defaultValues`, `dirtyMap`,
`errorMap`, the shared `_state`, the listener registries (listener callbacks
are represented by their subscription ids) and the optional validator. -/
structure Form where
  values : List (String × JSVal)
  defaultValues : List (String × JSVal)
  dirtyMap : List (String × Bool)
  errorMap : List (String × JSVal)
  state : JSVal
  listeners : List (String × List String)
  anyListeners : List String
  validator : Option (List (String × JSVal) → List (String × JSVal))

/-- The node with no fields, listeners or validator. -/
def emptyForm : Form :=
  { values := [], defaultValues := [], dirtyMap := [], errorMap := []
    state := .obj [], listeners := [], anyListeners := [], validator := none }

/-- Derived `dirty` getter: some entry of `dirtyMap` is true. -/
def formDirty (f : Form) : Bool :=
  f.dirtyMap.any (fun kv => kv.2)

/-- Derived `error` getter: some entry of `errorMap` is truthy. -/
def formError (f : Form) : Bool :=
  f.errorMap.any (fun kv => jsTruthy kv.2)

/-- The two-level world: the root form, the optional child form registered in
the root's `childMap` under its field name, and the event trace. -/
structure World where
  parent : Form
  child : Option (String × Form)
  trace : List Event

/-- Append events to the trace. -/
def World.log (w : World) (es : List Event) : World :=
  { w with trace := w.trace ++ es }

/-- Field key under which the child (if any) is registered in the parent. -/
def childKeyOf (w : World) : Option String :=
  w.child.map Prod.fst

/-- The child form, or the empty form when no child is registered. -/
def childFormD (w : World) : Form :=
  (w.child.map Prod.snd).getD emptyForm

/-- Events of `fireListeners(key, setValuesWasUsed)` on a node: one invocation
per subscription registered under `key`, in registration order. -/
def fieldFireEvents (f : Form) (n : NodeTag) (key : String) (bulk : Bool) : List Event :=
  ((alGet f.listeners key).getD []).map (fun id => .fieldFired n key id bulk)

/-- Events of `fireAnyListeners(setValuesWasUsed)` on a node. -/
def anyFireEvents (f : Form) (n : NodeTag) (bulk : Bool) : List Event :=
  f.anyListeners.map (fun id => .anyFired n id bulk)

/-- Events of `fireAnyListeners` on the child node of a world. -/
def anyFireEventsC (w : World) (bulk : Bool) : List Event :=
  anyFireEvents (childFormD w) .childNode bulk

/-- The errorMap update of `setError`: `if (!error) delete ... else store`
(a falsy error value also deletes). -/
def errorWrite (em : List (String × JSVal)) (key : String) (error : Option JSVal) :
    List (String × JSVal) :=
  match error with
  | none => alDel em key
  | some e => if jsTruthy e then alSet em key e else alDel em key

/-- The values/defaultValues update of `setValueInternal`: `undefined` deletes
the key, otherwise the key is written.  The verified worlds carry keyed
containers (the `Array.isArray(map)` splice branch is for sequence-shaped `T`,
which no claim exercises). -/
def valueWrite (m : List (String × JSVal)) (key : String) (value : Option JSVal) :
    List (String × JSVal) :=
  match value with
  | none => alDel m key
  | some v => alSet m key v

/-- Write `value` on the side selected by `isDefault` and update `dirtyMap`
when a dirty flag is supplied — the opening lines of `setValueInternal`. -/
def formWrite (f : Form) (key : String) (value : Option JSVal)
    (dirty : Option Bool) (isDefault : Bool) : Form :=
  let f1 :=
    if isDefault then { f with defaultValues := valueWrite f.defaultValues key value }
    else { f with values := valueWrite f.values key value }
  match dirty with
  | none => f1
  | some d => { f1 with dirtyMap := alSet f1.dirtyMap key d }

/-- Translation of `FormState.setError` on the root, specialized to
`notifyChild = false` (the form in which `ChildFormState.updateParentErrors`
calls it).  Split from `parentSetError` so the parent→child→parent call graph
is visibly acyclic.  `updateParentErrors` on the root is a no-op. -/
def parentSetErrorNC (w : World) (key : String) (error : Option JSVal)
    (notifyParent fireAny : Bool) : World :=
  if jsStrictEqOpt (alGet w.parent.errorMap key) error then w
  else
    let p := { w.parent with errorMap := errorWrite w.parent.errorMap key error }
    let w1 := { w with parent := p }
    let w2 := w1.log (fieldFireEvents p .parentNode key false)
    if fireAny then w2.log (anyFireEvents p .parentNode false) else w2

/-- Translation of `ChildFormState.updateParentErrors`:
`parent.setError(name, error ? memberCopy(errorMap) : undefined, false, true)`
(with `fireAny` left at its default `true`). -/
def childUpdateParentErrors (w : World) : World :=
  match w.child with
  | none => w
  | some (name, c) =>
      parentSetErrorNC w name
        (if formError c then some (.obj c.errorMap) else none) true true

/-- Translation of `FormState.setError` running on the child node.  The child
is a leaf here (its own `childMap` is empty), so its `notifyChild` branch never
finds a child; the parameter is kept for signature fidelity. -/
def childSetError (w : World) (key : String) (error : Option JSVal)
    (notifyChild notifyParent fireAny : Bool) : World :=
  match w.child with
  | none => w
  | some (name, c) =>
    if jsStrictEqOpt (alGet c.errorMap key) error then w
    else
      let c1 := { c with errorMap := errorWrite c.errorMap key error }
      let w1 := { w with child := some (name, c1) }
      let w2 := w1.log (fieldFireEvents c1 .childNode key false)
      if fireAny then
        let w3 := if notifyParent then childUpdateParentErrors w2 else w2
        w3.log (anyFireEventsC w3 false)
      else w2

/-- Translation of `FormState.setErrors` running on the child node: iterate
`setError` (with `fireAny` suppressed) over whichever key list is longer —
the current `errorMap`'s (`localKeys`) or the incoming map's (`newKeys`), the
current one on ties — then one upward propagation and one "any" fan-out. -/
def childSetErrors (w : World) (errors : List (String × JSVal))
    (notifyChild notifyParent : Bool) : World :=
  let w0 := w.log [.called .childNode .setErrorsOp]
  let localKeys := alKeys (childFormD w0).errorMap
  let newKeys := alKeys errors
  let mostKeys := if newKeys.length > localKeys.length then newKeys else localKeys
  let w1 := mostKeys.foldl
    (fun wa k => childSetError wa k (alGet errors k) notifyChild notifyParent false) w0
  let w2 := if notifyParent then childUpdateParentErrors w1 else w1
  w2.log (anyFireEventsC w2 false)

/-- Translation of `FormState.setError` on the root with the `notifyChild`
branch included: when a child is registered at `key`, the child's `setErrors`
is invoked with `(error ?? {})` (its field view) and default flags. -/
def parentSetError (w : World) (key : String) (error : Option JSVal)
    (notifyChild notifyParent fireAny : Bool) : World :=
  if jsStrictEqOpt (alGet w.parent.errorMap key) error then w
  else
    let p := { w.parent with errorMap := errorWrite w.parent.errorMap key error }
    let w1 := { w with parent := p }
    let w2 :=
      if notifyChild then
        match w.child with
        | some (name, _) =>
            if name = key then
              childSetErrors w1
                (match error with
                  | none => []
                  | some .null => []
                  | some e => jsFields e) true true
            else w1
        | none => w1
      else w1
    let w3 := w2.log (fieldFireEvents w2.parent .parentNode key false)
    if fireAny then w3.log (anyFireEvents w3.parent .parentNode false) else w3

/-- Translation of `FormState.setErrors` on the root: iterate `setError` (with
`fireAny` suppressed) over whichever key list is longer — the current
`errorMap`'s or the incoming map's, the current one on ties — then the single
"any" fan-out with flag `false` (`updateParentErrors` is a no-op on the root). -/
def parentSetErrors (w : World) (errors : List (String × JSVal))
    (notifyChild notifyParent : Bool) : World :=
  let localKeys := alKeys w.parent.errorMap
  let newKeys := alKeys errors
  let mostKeys := if newKeys.length > localKeys.length then newKeys else localKeys
  let w1 := mostKeys.foldl
    (fun wa k =>
      parentSetError (wa.log [.called .parentNode (.setErrorAt k)])
        k (alGet errors k) notifyChild notifyParent false) w
  w1.log (anyFireEvents w1.parent .parentNode false)

/-- Translation of `FormState.validate` on the root: apply the validator to
the current values and hand the result to `setErrors` (default flags); with no
validator configured it only warns. -/
def parentValidate (w : World) : World :=
  match w.parent.validator with
  | none => w
  | some vf => parentSetErrors w (vf w.parent.values) true true

/-- Translation of `FormState.validate` on the child node. -/
def childValidate (w : World) : World :=
  match (childFormD w).validator with
  | none => w
  | some vf => childSetErrors w (vf (childFormD w).values) true true

/-- Translation of `FormState.setValueInternal` on the root, specialized to
`notifyChild = false` (the form in which `ChildFormState.updateParentValues`
calls it): write the value and dirty flag, fire field listeners, and if
`fireAny` fire "any" listeners (`updateParentValues` is a no-op on the root);
finally validate when a validator is configured and `validate` is set. -/
def parentSetValueInternalNC (w : World) (key : String) (value : Option JSVal)
    (dirty : Option Bool) (validate isDefault notifyParent fireAny : Bool) : World :=
  let p := formWrite w.parent key value dirty isDefault
  let w1 := { w with parent := p }
  let w2 := w1.log (fieldFireEvents p .parentNode key false)
  let w3 := if fireAny then w2.log (anyFireEvents p .parentNode false) else w2
  if validate && p.validator.isSome then parentValidate w3 else w3

/-- Translation of `ChildFormState.updateParentValues`:
`parent.setValueInternal(name, memberCopy(side), this.dirty, true, isDefault,
false, true, true)`.  Copying the child's container as a JS object is the
identity on its field list. -/
def childUpdateParentValues (w : World) (isDefault : Bool) : World :=
  match w.child with
  | none => w
  | some (name, c) =>
      parentSetValueInternalNC w name
        (some (.obj (if isDefault then c.defaultValues else c.values)))
        (some (formDirty c)) true isDefault true true

/-- Translation of `FormState.setValueInternal` running on the child node.
The child is a leaf, so its own `notifyChild` branch finds no child; upward
propagation happens inside the `fireAny` block, before the "any" fan-out. -/
def childSetValueInternal (w : World) (key : String) (value : Option JSVal)
    (dirty : Option Bool) (validate isDefault notifyChild notifyParent fireAny : Bool) :
    World :=
  match w.child with
  | none => w
  | some (name, c) =>
    let c2 := formWrite c key value dirty isDefault
    let w1 := { w with child := some (name, c2) }
    let w2 := w1.log (fieldFireEvents c2 .childNode key false)
    let w3 :=
      if fireAny then
        let wa := if notifyParent then childUpdateParentValues w2 isDefault else w2
        wa.log (anyFireEventsC wa false)
      else w2
    if validate && c2.validator.isSome then childValidate w3 else w3

/-- Translation of `FormState.setValue` running on the child node: composite
(`typeof value === "object"`) writes always proceed with no dirty flag; scalar
writes short-circuit when `===` to the stored value on the written side, and
otherwise carry `dirty` = "differs from the opposite side".  Returns the
changed flag of the source (`false` exactly on the short-circuit). -/
def childSetValue (w : World) (key : String) (value : Option JSVal)
    (validate isDefault notifyChild notifyParent fireAny : Bool) : World × Bool :=
  let c := childFormD w
  if jsTypeOfOpt value = "object" then
    (childSetValueInternal w key value none validate isDefault notifyChild
      notifyParent fireAny, true)
  else
    if (isDefault && jsStrictEqOpt (alGet c.defaultValues key) value)
        || (!isDefault && jsStrictEqOpt (alGet c.values key) value) then
      (w, false)
    else
      (childSetValueInternal w key value
        (some (if isDefault then !jsStrictEqOpt value (alGet c.values key)
               else !jsStrictEqOpt value (alGet c.defaultValues key)))
        validate isDefault notifyChild notifyParent fireAny, true)

/-- Translation of `FormState.setValues` running on the child node: iterate
`setValue` (validation and "any" fan-out suppressed) over whichever key list
is longer — the target side's (`newKeys`) or the incoming container's
(`localKeys`), the incoming one on ties — then one upward propagation, the
single "any" fan-out with flag `true`, and validation if configured. -/
def childSetValues (w : World) (values : List (String × JSVal))
    (isDefault notifyChild notifyParent : Bool) : World :=
  let w0 := w.log [.called .childNode .setValuesOp]
  let c := childFormD w0
  let newKeys := alKeys (if isDefault then c.defaultValues else c.values)
  let localKeys := alKeys values
  let mostKeys := if newKeys.length > localKeys.length then newKeys else localKeys
  let w1 := mostKeys.foldl
    (fun wa k =>
      (childSetValue wa k (alGet values k) false isDefault notifyChild
        notifyParent false).1) w0
  let w2 := if notifyParent then childUpdateParentValues w1 isDefault else w1
  let w3 := w2.log (anyFireEventsC w2 true)
  if (childFormD w3).validator.isSome then childValidate w3 else w3

/-- Translation of `FormState.setValueInternal` on the root with the
`notifyChild` branch included: when the value is defined and a child is
registered at `key`, the child's `setValues` receives the new composite
(field view) with `notifyChild = true, notifyParent = false`, after which the
parent's `dirtyMap[key]` is overwritten with the child's aggregated dirty. -/
def parentSetValueInternal (w : World) (key : String) (value : Option JSVal)
    (dirty : Option Bool) (validate isDefault notifyChild notifyParent fireAny : Bool) :
    World :=
  let p := formWrite w.parent key value dirty isDefault
  let w1 := { w with parent := p }
  let w2 :=
    if notifyChild then
      match value with
      | some v =>
        match w.child with
        | some (name, _) =>
          if name = key then
            let wa := childSetValues w1 (jsFields v) isDefault true false
            { wa with parent :=
                { wa.parent with
                    dirtyMap := alSet wa.parent.dirtyMap key (formDirty (childFormD wa)) } }
          else w1
        | none => w1
      | none => w1
    else w1
  let w3 := w2.log (fieldFireEvents w2.parent .parentNode key false)
  let w4 := if fireAny then w3.log (anyFireEvents w3.parent .parentNode false) else w3
  if validate && w4.parent.validator.isSome then parentValidate w4 else w4

/-- Translation of `FormState.setValue` on the root (same contract as
`childSetValue`). -/
def parentSetValue (w : World) (key : String) (value : Option JSVal)
    (validate isDefault notifyChild notifyParent fireAny : Bool) : World × Bool :=
  if jsTypeOfOpt value = "object" then
    (parentSetValueInternal w key value none validate isDefault notifyChild
      notifyParent fireAny, true)
  else
    if (isDefault && jsStrictEqOpt (alGet w.parent.defaultValues key) value)
        || (!isDefault && jsStrictEqOpt (alGet w.parent.values key) value) then
      (w, false)
    else
      (parentSetValueInternal w key value
        (some (if isDefault then !jsStrictEqOpt value (alGet w.parent.values key)
               else !jsStrictEqOpt value (alGet w.parent.defaultValues key)))
        validate isDefault notifyChild notifyParent fireAny, true)

/-- Translation of `FormState.setValues` on the root: iterate `setValue`
(validation and "any" fan-out suppressed) over whichever key list is longer —
the target side's or the incoming container's, the incoming one on ties — then
the single "any" fan-out with flag `true` and validation if configured
(`updateParentValues` is a no-op on the root).  The per-key `setValue`
invocations are recorded in the trace. -/
def parentSetValues (w : World) (values : List (String × JSVal))
    (isDefault notifyChild notifyParent : Bool) : World :=
  let newKeys := alKeys (if isDefault then w.parent.defaultValues else w.parent.values)
  let localKeys := alKeys values
  let mostKeys := if newKeys.length > localKeys.length then newKeys else localKeys
  let w1 := mostKeys.foldl
    (fun wa k =>
      (parentSetValue (wa.log [.called .parentNode (.setValueAt k)])
        k (alGet values k) false isDefault notifyChild notifyParent false).1) w
  let w2 := w1.log (anyFireEvents w1.parent .parentNode true)
  if w2.parent.validator.isSome then parentValidate w2 else w2

/-- Translation of `FormState.setState` on the root specialized to
`notifyChild = false` (the form in which `ChildFormState.updateParentState`
calls it): replace the state, fire field listeners for every key of `values`,
and fire "any" listeners (`updateParentState` is a no-op on the root). -/
def parentSetStateNC (w : World) (state : JSVal) (notifyParent : Bool) : World :=
  let p := { w.parent with state := state }
  let w1 := { w with parent := p }
  let w2 := w1.log ((alKeys p.values).flatMap
    (fun k => fieldFireEvents p .parentNode k false))
  w2.log (anyFireEvents p .parentNode false)

/-- Translation of `ChildFormState.updateParentState`:
`parent.setState(memberCopy(this.state), false, true)`. -/
def childUpdateParentState (w : World) : World :=
  parentSetStateNC w (memberCopyT (childFormD w).state) true

/-- Translation of `FormState.setState` running on the child node (a leaf, so
its own downward loop finds no children): replace the state, fire field
listeners for every key of the child's `values`, propagate upward when
`notifyParent`, then fire "any" listeners. -/
def childSetState (w : World) (state : JSVal) (notifyChild notifyParent : Bool) : World :=
  match w.child with
  | none => w
  | some (name, c) =>
    let w0 := w.log [.called .childNode .setStateOp]
    let c1 := { c with state := state }
    let w1 := { w0 with child := some (name, c1) }
    let w2 := w1.log ((alKeys c1.values).flatMap
      (fun k => fieldFireEvents c1 .childNode k false))
    let w3 := if notifyParent then childUpdateParentState w2 else w2
    w3.log (anyFireEventsC w3 false)

/-- Translation of `FormState.setState` on the root: replace the state; when
`notifyChild`, recursively `setState` the child registered under each key of
`Object.keys(values)` (passing both flags through); fire field listeners for
each of those keys; then fire "any" listeners. -/
def parentSetState (w : World) (state : JSVal) (notifyChild notifyParent : Bool) : World :=
  let p := { w.parent with state := state }
  let w1 := { w with parent := p }
  let c := alKeys p.values
  let w2 :=
    if notifyChild then
      c.foldl
        (fun wa k =>
          match wa.child with
          | some (name, _) =>
              if name = k then childSetState wa state notifyChild notifyParent else wa
          | none => wa) w1
    else w1
  let w3 := w2.log (c.flatMap (fun k => fieldFireEvents w2.parent .parentNode k false))
  w3.log (anyFireEvents w3.parent .parentNode false)

/-- Translation of the `FormState` constructor: `memberCopy` the initial
values, defaults and state (propagating its failure), store the validator, and
start with empty dirty/error/listener registries. -/
def mkFormState (values defaultValues defaultState : JSVal)
    (validator : Option (List (String × JSVal) → List (String × JSVal))) :
    Except String Form := do
  let v ← memberCopy values
  let d ← memberCopy defaultValues
  let s ← memberCopy defaultState
  .ok { values := jsFields v, defaultValues := jsFields d, dirtyMap := []
        errorMap := [], state := s, listeners := [], anyListeners := []
        validator := validator }

/-- Translation of the `ChildFormState` constructor: seed the child from
`parent.values[name] ?? {}` and `parent.defaultValues[name] ?? {}` and the
parent's current state (all `memberCopy`-ed by the base constructor, which can
throw), then register the child in the parent's `childMap[name]`. -/
def mkChildFormState (parent : Form) (name : String) : Except String World := do
  let seedV := match alGet parent.values name with
    | none => JSVal.obj []
    | some .null => JSVal.obj []
    | some v => v
  let seedD := match alGet parent.defaultValues name with
    | none => JSVal.obj []
    | some .null => JSVal.obj []
    | some v => v
  let c ← mkFormState seedV seedD parent.state none
  .ok { parent := parent, child := some (name, c), trace := [] }

/-- Everything of a node except its `errorMap`: the error-mutation engine
(`setError`/`setErrors`/`validate` and the upward error hook) must leave all
of this untouched. -/
structure FormCore where
  values : List (String × JSVal)
  defaultValues : List (String × JSVal)
  dirtyMap : List (String × Bool)
  state : JSVal
  listeners : List (String × List String)
  anyListeners : List String
  validator : Option (List (String × JSVal) → List (String × JSVal))

/-- Projection of a node to its non-error state. -/
def Form.core (f : Form) : FormCore :=
  { values := f.values, defaultValues := f.defaultValues, dirtyMap := f.dirtyMap
    state := f.state, listeners := f.listeners, anyListeners := f.anyListeners
    validator := f.validator }

/-- Projection of the world to the non-error state of both nodes. -/
def worldCore (w : World) : FormCore × Option (String × FormCore) :=
  (w.parent.core, w.child.map (fun p => (p.1, p.2.core)))

/-- Count of events matching a predicate in a world's trace.  Since operations
only append to the trace, a preserved count of a class of events means no event
of that class is ever emitted by the operation. -/
def tcount (p : Event → Bool) (w : World) : Nat :=
  w.trace.countP p

/-- Event class: the child's `setValues` was invoked. -/
def isChildSetValuesCall : Event → Bool
  | .called .childNode .setValuesOp => true
  | _ => false

/-- Event class: some public mutator of the child node was invoked. -/
def isCalledOnChild : Event → Bool
  | .called .childNode _ => true
  | _ => false

/-- Event class: a field-scoped observer of the parent for `key` was invoked. -/
def isParentFieldFireAt (key : String) : Event → Bool
  | .fieldFired .parentNode k _ _ => k == key
  | _ => false

/-- Event class: a field-scoped observer invocation that received
`setValuesWasUsed = true`. -/
def isBulkFieldFire : Event → Bool
  | .fieldFired _ _ _ b => b
  | _ => false

/-- JavaScript `Array.isArray`. -/
def jsIsArray : JSVal → Bool
  | .arr _ => true
  | _ => false

/-- One-field example form whose value is already `null`, with one field
listener and one "any" listener. -/
def exNullForm : Form :=
  { emptyForm with
      values := [("n", JSVal.null)]
      listeners := [("n", ["l0"])]
      anyListeners := ["a0"] }

/-- One-field example world holding the number `5`. -/
def exNumWorld : World :=
  { parent := { emptyForm with values := [("n", JSVal.num 5)] }
    child := none
    trace := [] }

/-- Empty example world: no fields, no child, no validator. -/
def exEmptyWorld : World :=
  { parent := emptyForm
    child := none
    trace := [] }

/-- Example world for the C3 counterexample: one existing value key "a". -/
def exAWorld : World :=
  { parent := { emptyForm with values := [("a", JSVal.num 1)] }
    child := none
    trace := [] }

/-- Example world with one "any" listener and empty error map. -/
def exAnyWorld : World :=
  { parent := { emptyForm with anyListeners := ["anyid"] }
    child := none
    trace := [] }

/-- Example world with per-field listeners for a, b, c and one "any" listener. -/
def exABCWorld : World :=
  { parent := { emptyForm with
      listeners := [("a", ["la"]), ("b", ["lb"]), ("c", ["lc"])]
      anyListeners := ["anyid"] }
    child := none
    trace := [] }

/-- Example two-node world: parent field "address" with a child registered on
it, both without validators or listeners. -/
def exAddrWorld : World :=
  { parent := { emptyForm with
      values := [("address", JSVal.obj [("city", JSVal.str "x")])]
      listeners := [("address", ["pl"])]
      anyListeners := ["pa"] }
    child := some ("address",
      { emptyForm with
          values := [("city", JSVal.str "x")]
          defaultValues := [("city", JSVal.str "y")]
          listeners := [("city", ["cl"])]
          anyListeners := ["ca"] })
    trace := [] }

/-- The child form of the example two-node world. -/
def exAddrChild : Form :=
  { emptyForm with
      values := [("city", JSVal.str "x")]
      defaultValues := [("city", JSVal.str "y")]
      listeners := [("city", ["cl"])]
      anyListeners := ["ca"] }

/-- Example two-node world for the C7 counterexample: parent field "address"
holds `{a: 1}` and a child registered on "address" mirrors it. -/
def exShrinkWorld : World :=
  { parent := { emptyForm with
      values := [("address", JSVal.obj [("a", JSVal.num 1)])] }
    child := some ("address", { emptyForm with values := [("a", JSVal.num 1)] })
    trace := [] }

/-- The world produced by `ChildFormState` construction on a parent whose
field `name` holds composites on both sides. -/
def seededChildWorld (p : Form) (name : String)
    (lv ld : List (String × JSVal)) (ls : List (String × JSVal)) : World :=
  { parent := p
    child := some (name,
      { values := lv, defaultValues := ld, dirtyMap := [], errorMap := []
        state := .obj ls, listeners := [], anyListeners := [], validator := none })
    trace := [] }

/-- Example parent form for the C7 witness. -/
def exC7Parent : Form :=
  { emptyForm with
      values := [("address", JSVal.obj [("city", JSVal.str "x")])]
      defaultValues := [("address", JSVal.obj [("city", JSVal.str "y")])] }

/-- Example two-node world whose parent has a validator reporting a nested
error under the child's field. -/
def exValWorld : World :=
  { parent := { emptyForm with
      values := [("address", JSVal.obj [("city", JSVal.str "x")])]
      listeners := [("address", ["pl"])]
      validator := some (fun _ => [("address", JSVal.obj [("city", JSVal.str "bad")])]) }
    child := some ("address",
      { emptyForm with
          values := [("city", JSVal.str "x")]
          defaultValues := [("city", JSVal.str "y")] })
    trace := [] }

/-- Example world with values `{a: 1}` and a field listener under the absent
key "x". -/
def exXWorld : World :=
  { parent := { emptyForm with
      values := [("a", JSVal.num 1)]
      listeners := [("x", ["lx"])] }
    child := none
    trace := [] }

/-- Example two-node world for the C8 witness: parent field "sub" with a
registered child. -/
def exSubWorld : World :=
  { parent := { emptyForm with values := [("sub", JSVal.obj [])] }
    child := some ("sub", { emptyForm with values := [("q", JSVal.num 1)] })
    trace := [] }

/-- Reading back a key just written. -/
theorem alGet_alSet {α : Type} (l : List (String × α)) (k : String) (v : α) :
    alGet (alSet l k v) k = some v := by
  induction l with
  | nil => simp [alSet, alGet]
  | cons kv rest ih =>
      by_cases h : kv.1 = k
      · simp [alSet, h, alGet]
      · simp [alSet, h, alGet, ih]

/-- Writing one key does not disturb another. -/
theorem alGet_alSet_ne {α : Type} (l : List (String × α)) (k k' : String) (v : α)
    (h : k ≠ k') : alGet (alSet l k v) k' = alGet l k' := by
  induction l with
  | nil => simp [alSet, alGet, h]
  | cons kv rest ih =>
      by_cases hk : kv.1 = k
      · simp [alSet, hk, alGet, h]
      · simp [alSet, hk, alGet, ih]

/-- A fold whose step preserves a projection preserves it overall. -/
theorem foldlPreserves {α β γ : Type} (g : α → γ) (f : α → β → α)
    (h : ∀ x b, g (f x b) = g x) :
    ∀ (l : List β) (a : α), g (l.foldl f a) = g a := by
  intro l
  induction l with
  | nil => intro a; rfl
  | cons b bs ih => intro a; rw [List.foldl_cons, ih, h]

@[simp]
theorem core_errorMap (f : Form) (em : List (String × JSVal)) :
    Form.core { f with errorMap := em } = f.core := rfl

@[simp]
theorem worldCore_log (w : World) (es : List Event) :
    worldCore (w.log es) = worldCore w := rfl

theorem worldCore_parentSetErrorNC (w : World) (k : String) (e : Option JSVal)
    (np fa : Bool) : worldCore (parentSetErrorNC w k e np fa) = worldCore w := by
  unfold parentSetErrorNC
  split
  · rfl
  · cases fa <;> simp [worldCore, World.log]

theorem worldCore_childUpdateParentErrors (w : World) :
    worldCore (childUpdateParentErrors w) = worldCore w := by
  unfold childUpdateParentErrors
  cases h : w.child with
  | none => rfl
  | some p => exact worldCore_parentSetErrorNC ..

theorem worldCore_childSetError (w : World) (k : String) (e : Option JSVal)
    (nc np fa : Bool) : worldCore (childSetError w k e nc np fa) = worldCore w := by
  unfold childSetError
  split
  · rfl
  next name c heq =>
    split
    · rfl
    · cases fa
      · simp [worldCore, World.log, heq, Form.core]
      · cases np
        · simp [worldCore, World.log, heq, Form.core]
        · simp only [if_true, worldCore_log]
          rw [worldCore_childUpdateParentErrors]
          simp [worldCore, World.log, heq, Form.core]

theorem worldCore_childSetErrors (w : World) (errors : List (String × JSVal))
    (nc np : Bool) : worldCore (childSetErrors w errors nc np) = worldCore w := by
  unfold childSetErrors
  have hfold := foldlPreserves worldCore
    (fun wa k => childSetError wa k (alGet errors k) nc np false)
    (fun x b => worldCore_childSetError ..)
  cases np
  · simp only [Bool.false_eq_true, if_false, worldCore_log]
    rw [hfold, worldCore_log]
  · simp only [if_true, worldCore_log]
    rw [worldCore_childUpdateParentErrors, hfold, worldCore_log]

theorem worldCore_parentSetError (w : World) (k : String) (e : Option JSVal)
    (nc np fa : Bool) : worldCore (parentSetError w k e nc np fa) = worldCore w := by
  unfold parentSetError
  split
  · rfl
  · cases nc
    · cases fa <;> simp [worldCore, World.log, Form.core]
    · rcases hc : w.child with _ | ⟨name, c⟩
      · cases fa <;> simp [worldCore, World.log, Form.core, hc]
      · by_cases hk : name = k
        · subst hk
          cases fa
          · simp only [hc, if_true, Bool.false_eq_true, if_false, worldCore_log]
            rw [worldCore_childSetErrors]
            simp [worldCore, Form.core, hc]
          · simp only [hc, if_true, worldCore_log]
            rw [worldCore_childSetErrors]
            simp [worldCore, Form.core, hc]
        · cases fa <;> simp [worldCore, World.log, Form.core, hc, hk]

theorem worldCore_parentSetErrors (w : World) (errors : List (String × JSVal))
    (nc np : Bool) : worldCore (parentSetErrors w errors nc np) = worldCore w := by
  unfold parentSetErrors
  rw [worldCore_log]
  exact foldlPreserves worldCore _
    (fun x b => by rw [worldCore_parentSetError, worldCore_log]) _ w

theorem worldCore_parentValidate (w : World) :
    worldCore (parentValidate w) = worldCore w := by
  unfold parentValidate
  cases h : w.parent.validator with
  | none => rfl
  | some vf => exact worldCore_parentSetErrors ..

theorem worldCore_childValidate (w : World) :
    worldCore (childValidate w) = worldCore w := by
  unfold childValidate
  cases h : (childFormD w).validator with
  | none => rfl
  | some vf => exact worldCore_childSetErrors ..

section TracePres

variable (p : Event → Bool)
variable (hFF : ∀ n k id, p (.fieldFired n k id false) = false)
variable (hAF : ∀ n id b, p (.anyFired n id b) = false)

theorem tcount_log (w : World) (es : List Event) :
    tcount p (w.log es) = tcount p w + es.countP p := by
  simp [tcount, World.log]

include hFF hAF

theorem countP_fieldFireEvents (f : Form) (n : NodeTag) (k : String) :
    (fieldFireEvents f n k false).countP p = 0 := by
  rw [fieldFireEvents, List.countP_map]
  exact List.countP_eq_zero.mpr (fun a ha => by simp [Function.comp, hFF])

theorem countP_anyFireEvents (f : Form) (n : NodeTag) (b : Bool) :
    (anyFireEvents f n b).countP p = 0 := by
  rw [anyFireEvents, List.countP_map]
  exact List.countP_eq_zero.mpr (fun a ha => by simp [Function.comp, hAF])

theorem countP_anyFireEventsC (w : World) (b : Bool) :
    (anyFireEventsC w b).countP p = 0 := by
  rw [anyFireEventsC]
  exact countP_anyFireEvents p hFF hAF ..

theorem tcount_parentSetErrorNC (w : World) (k : String) (e : Option JSVal)
    (np fa : Bool) : tcount p (parentSetErrorNC w k e np fa) = tcount p w := by
  unfold parentSetErrorNC
  split
  · rfl
  · cases fa <;>
      simp [tcount, World.log, List.countP_append,
        countP_fieldFireEvents p hFF hAF,
        countP_anyFireEvents p hFF hAF]

theorem tcount_childUpdateParentErrors (w : World) :
    tcount p (childUpdateParentErrors w) = tcount p w := by
  unfold childUpdateParentErrors
  cases h : w.child with
  | none => rfl
  | some q => exact tcount_parentSetErrorNC p hFF hAF ..

theorem tcount_childSetError (w : World) (k : String) (e : Option JSVal)
    (nc np fa : Bool) : tcount p (childSetError w k e nc np fa) = tcount p w := by
  unfold childSetError
  split
  · rfl
  next name c heq =>
    split
    · rfl
    · cases fa
      · simp [tcount, World.log, List.countP_append,
          countP_fieldFireEvents p hFF hAF]
      · cases np
        · simp [tcount, World.log, List.countP_append,
            countP_fieldFireEvents p hFF hAF,
            countP_anyFireEventsC p hFF hAF]
        · simp only [if_true]
          rw [tcount_log, countP_anyFireEventsC p hFF hAF,
            tcount_childUpdateParentErrors p hFF hAF]
          simp [tcount, World.log, List.countP_append,
            countP_fieldFireEvents p hFF hAF]

theorem tcount_childSetErrors
    (hCE : p (.called .childNode .setErrorsOp) = false)
    (w : World) (errors : List (String × JSVal))
    (nc np : Bool) : tcount p (childSetErrors w errors nc np) = tcount p w := by
  unfold childSetErrors
  have hfold := foldlPreserves (tcount p)
    (fun wa k => childSetError wa k (alGet errors k) nc np false)
    (fun x b => tcount_childSetError p hFF hAF ..)
  cases np
  · simp only [Bool.false_eq_true, if_false]
    rw [tcount_log, countP_anyFireEventsC p hFF hAF, hfold, tcount_log]
    simp [List.countP_cons, hCE]
  · simp only [if_true]
    rw [tcount_log, countP_anyFireEventsC p hFF hAF,
      tcount_childUpdateParentErrors p hFF hAF, hfold, tcount_log]
    simp [List.countP_cons, hCE]

theorem tcount_parentSetError
    (hCE : p (.called .childNode .setErrorsOp) = false)
    (w : World) (k : String) (e : Option JSVal)
    (nc np fa : Bool) : tcount p (parentSetError w k e nc np fa) = tcount p w := by
  unfold parentSetError
  split
  · rfl
  · cases nc
    · cases fa <;>
        simp [tcount, World.log, List.countP_append,
          countP_fieldFireEvents p hFF hAF,
          countP_anyFireEvents p hFF hAF]
    · rcases hc : w.child with _ | ⟨name, c⟩
      · cases fa <;>
          simp [hc, tcount, World.log, List.countP_append,
            countP_fieldFireEvents p hFF hAF,
            countP_anyFireEvents p hFF hAF]
      · by_cases hk : name = k
        · subst hk
          cases fa
          · simp only [hc, if_true, Bool.false_eq_true, if_false]
            rw [tcount_log, countP_fieldFireEvents p hFF hAF,
              tcount_childSetErrors p hFF hAF hCE]
            simp [tcount, World.log]
          · simp only [hc, if_true]
            rw [tcount_log, countP_anyFireEvents p hFF hAF,
              tcount_log, countP_fieldFireEvents p hFF hAF,
              tcount_childSetErrors p hFF hAF hCE]
            simp [tcount, World.log]
        · cases fa <;>
            simp [hc, hk, tcount, World.log, List.countP_append,
              countP_fieldFireEvents p hFF hAF,
              countP_anyFireEvents p hFF hAF]

theorem tcount_parentSetErrors_delta
    (hCE : p (.called .childNode .setErrorsOp) = false)
    (w : World) (errors : List (String × JSVal)) (nc np : Bool) :
    tcount p (parentSetErrors w errors nc np)
      = tcount p w
        + (if (alKeys errors).length > (alKeys w.parent.errorMap).length
            then alKeys errors else alKeys w.parent.errorMap).countP
            (fun k => p (.called .parentNode (.setErrorAt k))) := by
  unfold parentSetErrors
  rw [tcount_log, countP_anyFireEvents p hFF hAF]
  have hfold : ∀ (l : List String) (a : World),
      tcount p (l.foldl
        (fun wa k => parentSetError (wa.log [.called .parentNode (.setErrorAt k)])
          k (alGet errors k) nc np false) a)
        = tcount p a + l.countP (fun k => p (.called .parentNode (.setErrorAt k))) := by
    intro l
    induction l with
    | nil => intro a; simp
    | cons k ks ih =>
        intro a
        rw [List.foldl_cons, ih, tcount_parentSetError p hFF hAF hCE, tcount_log]
        simp only [List.countP_cons, List.countP_nil]
        omega
  rw [hfold]
  simp

theorem tcount_parentSetErrors
    (hCE : p (.called .childNode .setErrorsOp) = false)
    (hEA : ∀ k, p (.called .parentNode (.setErrorAt k)) = false)
    (w : World) (errors : List (String × JSVal))
    (nc np : Bool) : tcount p (parentSetErrors w errors nc np) = tcount p w := by
  rw [tcount_parentSetErrors_delta p hFF hAF hCE]
  have hz : ∀ l : List String,
      l.countP (fun k => p (.called .parentNode (.setErrorAt k))) = 0 := by
    intro l
    exact List.countP_eq_zero.mpr (fun a ha => by simp [hEA])
  rw [hz]
  simp

theorem tcount_parentValidate
    (hCE : p (.called .childNode .setErrorsOp) = false)
    (hEA : ∀ k, p (.called .parentNode (.setErrorAt k)) = false)
    (w : World) : tcount p (parentValidate w) = tcount p w := by
  unfold parentValidate
  cases h : w.parent.validator with
  | none => rfl
  | some vf => exact tcount_parentSetErrors p hFF hAF hCE hEA ..

theorem tcount_childValidate
    (hCE : p (.called .childNode .setErrorsOp) = false)
    (w : World) : tcount p (childValidate w) = tcount p w := by
  unfold childValidate
  cases h : (childFormD w).validator with
  | none => rfl
  | some vf => exact tcount_childSetErrors p hFF hAF hCE ..

theorem tcount_parentSetValueInternalNC
    (hCE : p (.called .childNode .setErrorsOp) = false)
    (hEA : ∀ k, p (.called .parentNode (.setErrorAt k)) = false)
    (w : World) (k : String)
    (v : Option JSVal) (d : Option Bool) (validate isDefault np fa : Bool) :
    tcount p (parentSetValueInternalNC w k v d validate isDefault np fa) = tcount p w := by
  unfold parentSetValueInternalNC
  have hval : ∀ (b : Bool) (w' : World),
      tcount p (if b then parentValidate w' else w') = tcount p w' := by
    intro b w'
    split
    · exact tcount_parentValidate p hFF hAF hCE hEA w'
    · rfl
  simp only []
  rw [hval]
  cases fa <;>
    simp [tcount, World.log, List.countP_append,
      countP_fieldFireEvents p hFF hAF,
      countP_anyFireEvents p hFF hAF]

theorem tcount_childUpdateParentValues
    (hCE : p (.called .childNode .setErrorsOp) = false)
    (hEA : ∀ k, p (.called .parentNode (.setErrorAt k)) = false)
    (w : World) (isDefault : Bool) :
    tcount p (childUpdateParentValues w isDefault) = tcount p w := by
  unfold childUpdateParentValues
  cases h : w.child with
  | none => rfl
  | some q => exact tcount_parentSetValueInternalNC p hFF hAF hCE hEA ..

theorem tcount_childSetValueInternal
    (hCE : p (.called .childNode .setErrorsOp) = false)
    (hEA : ∀ k, p (.called .parentNode (.setErrorAt k)) = false)
    (w : World) (k : String)
    (v : Option JSVal) (d : Option Bool) (validate isDefault nc np fa : Bool) :
    tcount p (childSetValueInternal w k v d validate isDefault nc np fa) = tcount p w := by
  unfold childSetValueInternal
  split
  · rfl
  next name c heq =>
    have hval : ∀ w' : World,
        tcount p (if validate && (formWrite c k v d isDefault).validator.isSome
          then childValidate w' else w') = tcount p w' := by
      intro w'
      split
      · exact tcount_childValidate p hFF hAF hCE w'
      · rfl
    simp only []
    rw [hval]
    cases fa
    · simp [tcount, World.log, List.countP_append,
        countP_fieldFireEvents p hFF hAF]
    · cases np
      · simp [tcount, World.log, List.countP_append,
          countP_fieldFireEvents p hFF hAF,
          countP_anyFireEventsC p hFF hAF]
      · simp only [if_true]
        rw [tcount_log, countP_anyFireEventsC p hFF hAF,
          tcount_childUpdateParentValues p hFF hAF hCE hEA]
        simp [tcount, World.log, List.countP_append,
          countP_fieldFireEvents p hFF hAF]

theorem tcount_childSetValue
    (hCE : p (.called .childNode .setErrorsOp) = false)
    (hEA : ∀ k, p (.called .parentNode (.setErrorAt k)) = false)
    (w : World) (k : String) (v : Option JSVal)
    (validate isDefault nc np fa : Bool) :
    tcount p (childSetValue w k v validate isDefault nc np fa).1 = tcount p w := by
  unfold childSetValue
  simp only []
  split
  · exact tcount_childSetValueInternal p hFF hAF hCE hEA w k v none validate
      isDefault nc np fa
  · cases hsc : (isDefault && jsStrictEqOpt (alGet (childFormD w).defaultValues k) v
        || !isDefault && jsStrictEqOpt (alGet (childFormD w).values k) v)
    · simp only [hsc, Bool.false_eq_true, if_false]
      exact tcount_childSetValueInternal p hFF hAF hCE hEA w k v
        (some (if isDefault then !jsStrictEqOpt v (alGet (childFormD w).values k)
               else !jsStrictEqOpt v (alGet (childFormD w).defaultValues k)))
        validate isDefault nc np fa
    · simp only [hsc, if_true]

theorem tcount_childSetValues
    (hCE : p (.called .childNode .setErrorsOp) = false)
    (hEA : ∀ k, p (.called .parentNode (.setErrorAt k)) = false)
    (hCV : p (.called .childNode .setValuesOp) = false)
    (w : World) (vals : List (String × JSVal)) (isDefault nc np : Bool) :
    tcount p (childSetValues w vals isDefault nc np) = tcount p w := by
  unfold childSetValues
  have hval : ∀ (b : Bool) (w' : World),
      tcount p (if b then childValidate w' else w') = tcount p w' := by
    intro b w'
    split
    · exact tcount_childValidate p hFF hAF hCE w'
    · rfl
  simp only []
  rw [hval, tcount_log, countP_anyFireEventsC p hFF hAF]
  have hnp : ∀ w' : World,
      tcount p (if np then childUpdateParentValues w' isDefault else w') = tcount p w' := by
    intro w'
    split
    · exact tcount_childUpdateParentValues p hFF hAF hCE hEA w' isDefault
    · rfl
  rw [hnp]
  have hfold := foldlPreserves (tcount p)
    (fun wa k => (childSetValue wa k (alGet vals k) false isDefault nc np false).1)
    (fun x b => tcount_childSetValue p hFF hAF hCE hEA ..)
  rw [hfold, tcount_log]
  simp [List.countP_cons, hCV]

theorem tcount_parentSetValueInternal
    (hCE : p (.called .childNode .setErrorsOp) = false)
    (hEA : ∀ k, p (.called .parentNode (.setErrorAt k)) = false)
    (hCV : p (.called .childNode .setValuesOp) = false)
    (w : World) (k : String)
    (v : Option JSVal) (d : Option Bool) (validate isDefault nc np fa : Bool) :
    tcount p (parentSetValueInternal w k v d validate isDefault nc np fa) = tcount p w := by
  unfold parentSetValueInternal
  have hval : ∀ (b : Bool) (w' : World),
      tcount p (if b then parentValidate w' else w') = tcount p w' := by
    intro b w'
    split
    · exact tcount_parentValidate p hFF hAF hCE hEA w'
    · rfl
  simp only []
  rw [hval]
  have hlog : ∀ (b : Bool) (w' : World) (es : List Event),
      es.countP p = 0 → tcount p (if b then w'.log es else w') = tcount p w' := by
    intro b w' es hz
    split
    · rw [tcount_log, hz]
      simp
    · rfl
  rw [hlog _ _ _ (countP_anyFireEvents p hFF hAF ..), tcount_log,
    countP_fieldFireEvents p hFF hAF]
  cases nc
  · simp [tcount]
  · cases v with
    | none => simp [tcount]
    | some vv =>
      rcases hc : w.child with _ | ⟨name, cf⟩
      · simp [tcount]
      · by_cases hk : name = k
        · subst hk
          simp only [eq_self_iff_true, if_true]
          have hcs := tcount_childSetValues p hFF hAF hCE hEA hCV
            ({ w with parent := formWrite w.parent name (some vv) d isDefault })
            (jsFields vv) isDefault true false
          rw [hc] at hcs
          exact hcs
        · simp [hk, tcount]

theorem tcount_parentSetValue
    (hCE : p (.called .childNode .setErrorsOp) = false)
    (hEA : ∀ k, p (.called .parentNode (.setErrorAt k)) = false)
    (hCV : p (.called .childNode .setValuesOp) = false)
    (w : World) (k : String) (v : Option JSVal)
    (validate isDefault nc np fa : Bool) :
    tcount p (parentSetValue w k v validate isDefault nc np fa).1 = tcount p w := by
  unfold parentSetValue
  split
  · exact tcount_parentSetValueInternal p hFF hAF hCE hEA hCV w k v none validate
      isDefault nc np fa
  · cases hsc : (isDefault && jsStrictEqOpt (alGet w.parent.defaultValues k) v
        || !isDefault && jsStrictEqOpt (alGet w.parent.values k) v)
    · simp only [hsc, Bool.false_eq_true, if_false]
      exact tcount_parentSetValueInternal p hFF hAF hCE hEA hCV w k v
        (some (if isDefault then !jsStrictEqOpt v (alGet w.parent.values k)
               else !jsStrictEqOpt v (alGet w.parent.defaultValues k)))
        validate isDefault nc np fa
    · simp only [hsc, if_true]

theorem tcount_parentSetValues_delta
    (hCE : p (.called .childNode .setErrorsOp) = false)
    (hEA : ∀ k, p (.called .parentNode (.setErrorAt k)) = false)
    (hCV : p (.called .childNode .setValuesOp) = false)
    (w : World) (vals : List (String × JSVal)) (isDefault nc np : Bool) :
    tcount p (parentSetValues w vals isDefault nc np)
      = tcount p w
        + (if (alKeys (if isDefault then w.parent.defaultValues else w.parent.values)).length
              > (alKeys vals).length
            then alKeys (if isDefault then w.parent.defaultValues else w.parent.values)
            else alKeys vals).countP
            (fun k => p (.called .parentNode (.setValueAt k))) := by
  unfold parentSetValues
  have hval : ∀ (b : Bool) (w' : World),
      tcount p (if b then parentValidate w' else w') = tcount p w' := by
    intro b w'
    split
    · exact tcount_parentValidate p hFF hAF hCE hEA w'
    · rfl
  simp only []
  rw [hval, tcount_log, countP_anyFireEvents p hFF hAF]
  have hfold : ∀ (l : List String) (a : World),
      tcount p (l.foldl
        (fun wa k => (parentSetValue (wa.log [.called .parentNode (.setValueAt k)])
          k (alGet vals k) false isDefault nc np false).1) a)
        = tcount p a + l.countP (fun k => p (.called .parentNode (.setValueAt k))) := by
    intro l
    induction l with
    | nil => intro a; simp
    | cons k ks ih =>
        intro a
        rw [List.foldl_cons, ih, tcount_parentSetValue p hFF hAF hCE hEA hCV, tcount_log]
        simp only [List.countP_cons, List.countP_nil]
        omega
  rw [hfold]
  simp

end TracePres

@[simp]
theorem formWrite_values_false (f : Form) (k : String) (v : Option JSVal)
    (d : Option Bool) : (formWrite f k v d false).values = valueWrite f.values k v := by
  unfold formWrite
  cases d <;> rfl

@[simp]
theorem formWrite_defaults_false (f : Form) (k : String) (v : Option JSVal)
    (d : Option Bool) : (formWrite f k v d false).defaultValues = f.defaultValues := by
  unfold formWrite
  cases d <;> rfl

@[simp]
theorem formWrite_dirtyMap_some (f : Form) (k : String) (v : Option JSVal)
    (d : Bool) (isd : Bool) :
    (formWrite f k v (some d) isd).dirtyMap = alSet f.dirtyMap k d := by
  unfold formWrite
  cases isd <;> rfl

@[simp]
theorem formWrite_dirtyMap_none (f : Form) (k : String) (v : Option JSVal)
    (isd : Bool) : (formWrite f k v none isd).dirtyMap = f.dirtyMap := by
  unfold formWrite
  cases isd <;> rfl

@[simp]
theorem formWrite_listeners (f : Form) (k : String) (v : Option JSVal)
    (d : Option Bool) (isd : Bool) :
    (formWrite f k v d isd).listeners = f.listeners := by
  unfold formWrite
  cases d <;> cases isd <;> rfl

@[simp]
theorem formWrite_anyListeners (f : Form) (k : String) (v : Option JSVal)
    (d : Option Bool) (isd : Bool) :
    (formWrite f k v d isd).anyListeners = f.anyListeners := by
  unfold formWrite
  cases d <;> cases isd <;> rfl

@[simp]
theorem formWrite_validator (f : Form) (k : String) (v : Option JSVal)
    (d : Option Bool) (isd : Bool) :
    (formWrite f k v d isd).validator = f.validator := by
  unfold formWrite
  cases d <;> cases isd <;> rfl

@[simp]
theorem formWrite_errorMap (f : Form) (k : String) (v : Option JSVal)
    (d : Option Bool) (isd : Bool) :
    (formWrite f k v d isd).errorMap = f.errorMap := by
  unfold formWrite
  cases d <;> cases isd <;> rfl

@[simp]
theorem fieldFireEvents_formWrite (f : Form) (k : String) (v : Option JSVal)
    (d : Option Bool) (isd : Bool) (n : NodeTag) (key : String) (b : Bool) :
    fieldFireEvents (formWrite f k v d isd) n key b = fieldFireEvents f n key b := by
  unfold fieldFireEvents
  rw [formWrite_listeners]

@[simp]
theorem anyFireEvents_formWrite (f : Form) (k : String) (v : Option JSVal)
    (d : Option Bool) (isd : Bool) (n : NodeTag) (b : Bool) :
    anyFireEvents (formWrite f k v d isd) n b = anyFireEvents f n b := by
  unfold anyFireEvents
  rw [formWrite_anyListeners]

/-- Main synchronization fact of a child-side `setValueInternal` with the
default propagation flags (`notifyParent = true`, `fireAny = true`,
`isDefault = false`): whatever the validators do afterwards, the non-error
state of both nodes ends up as "child wrote locally, then
`updateParentValues` pushed a copy of the child's container and its aggregated
dirty flag into the parent with `notifyChild = false`". -/
theorem worldCore_childSetValueInternal_sync (w : World) (name : String) (c : Form)
    (key : String) (v : Option JSVal) (d : Option Bool) (validate nc : Bool)
    (hc : w.child = some (name, c)) :
    worldCore (childSetValueInternal w key v d validate false nc true true) =
      ((formWrite w.parent name (some (.obj (formWrite c key v d false).values))
          (some (formDirty (formWrite c key v d false))) false).core,
        some (name, (formWrite c key v d false).core)) := by
  unfold childSetValueInternal
  rw [hc]
  simp only []
  have h1 : ∀ (b : Bool) (w' : World),
      worldCore (if b then childValidate w' else w') = worldCore w' := by
    intro b w'
    split
    · exact worldCore_childValidate w'
    · rfl
  rw [h1]
  simp only [if_true]
  rw [worldCore_log]
  unfold childUpdateParentValues
  simp only [World.log]
  unfold parentSetValueInternalNC
  simp only []
  have h2 : ∀ (b : Bool) (w' : World),
      worldCore (if b then parentValidate w' else w') = worldCore w' := by
    intro b w'
    split
    · exact worldCore_parentValidate w'
    · rfl
  rw [h2]
  simp [worldCore, World.log, Form.core]

/-- Exact event sequence of a child-side `setValueInternal` with default
propagation flags when neither node has a validator: the child's field
observers for `key` fire, then (inside `updateParentValues`, which passes
`notifyChild = false`) the parent's field observers for the child's field name
fire once, the parent's "any" observers fire, and finally the child's "any"
observers fire.  No mutator of the child is invoked. -/
theorem trace_childSetValueInternal_noval (w : World) (name : String) (c : Form)
    (key : String) (v : Option JSVal) (d : Option Bool) (validate nc : Bool)
    (hc : w.child = some (name, c)) (hcv : c.validator = none)
    (hpv : w.parent.validator = none) :
    (childSetValueInternal w key v d validate false nc true true).trace =
      w.trace
        ++ fieldFireEvents c .childNode key false
        ++ fieldFireEvents w.parent .parentNode name false
        ++ anyFireEvents w.parent .parentNode false
        ++ anyFireEvents c .childNode false := by
  unfold childSetValueInternal
  rw [hc]
  simp only []
  unfold childUpdateParentValues parentSetValueInternalNC
  simp [hcv, hpv, World.log, anyFireEventsC, childFormD, List.append_assoc]

@[simp]
theorem formWrite_values_true (f : Form) (k : String) (v : Option JSVal)
    (d : Option Bool) : (formWrite f k v d true).values = f.values := by
  unfold formWrite
  cases d <;> rfl

@[simp]
theorem formWrite_defaults_true (f : Form) (k : String) (v : Option JSVal)
    (d : Option Bool) :
    (formWrite f k v d true).defaultValues = valueWrite f.defaultValues k v := by
  unfold formWrite
  cases d <;> rfl

theorem alGet_alDel {α : Type} (l : List (String × α)) (k : String) :
    alGet (alDel l k) k = none := by
  induction l with
  | nil => rfl
  | cons kv rest ih =>
      by_cases h : kv.1 = k
      · simpa [alDel, List.filter_cons, h] using ih
      · simpa [alDel, List.filter_cons, h, alGet, bne] using ih

theorem jsStrictEqOpt_refl_scalar (v : Option JSVal) (h : jsTypeOfOpt v ≠ "object") :
    jsStrictEqOpt v v = true := by
  match v with
  | none => rfl
  | some .null => exact absurd rfl h
  | some (.bool b) => simp [jsStrictEqOpt, jsStrictEq]
  | some (.num n) => simp [jsStrictEqOpt, jsStrictEq]
  | some (.str s) => simp [jsStrictEqOpt, jsStrictEq]
  | some (.arr xs) => exact absurd rfl h
  | some (.obj l) => exact absurd rfl h

theorem pcore_childSetValueInternal_npfalse (w : World) (k : String)
    (v : Option JSVal) (d : Option Bool) (val isd nc fa : Bool) :
    (childSetValueInternal w k v d val isd nc false fa).parent.core = w.parent.core := by
  unfold childSetValueInternal
  split
  · rfl
  next name c heq =>
    have hval : ∀ (b : Bool) (w' : World),
        (if b then childValidate w' else w').parent.core = w'.parent.core := by
      intro b w'
      split
      · exact congrArg Prod.fst (worldCore_childValidate w')
      · rfl
    cases fa <;> simp only [Bool.false_eq_true, if_false, if_true] <;>
      rw [hval] <;> simp [World.log]

theorem pcore_childSetValue_npfalse (w : World) (k : String) (v : Option JSVal)
    (val isd nc fa : Bool) :
    (childSetValue w k v val isd nc false fa).1.parent.core = w.parent.core := by
  unfold childSetValue
  simp only []
  split
  · exact pcore_childSetValueInternal_npfalse w k v none val isd nc fa
  · cases hsc : (isd && jsStrictEqOpt (alGet (childFormD w).defaultValues k) v
        || !isd && jsStrictEqOpt (alGet (childFormD w).values k) v)
    · simp only [hsc, Bool.false_eq_true, if_false]
      exact pcore_childSetValueInternal_npfalse w k v
        (some (if isd then !jsStrictEqOpt v (alGet (childFormD w).values k)
               else !jsStrictEqOpt v (alGet (childFormD w).defaultValues k)))
        val isd nc fa
    · simp only [hsc, if_true]

theorem pcore_childSetValues_npfalse (w : World) (vals : List (String × JSVal))
    (isd nc : Bool) :
    (childSetValues w vals isd nc false).parent.core = w.parent.core := by
  unfold childSetValues
  simp only [Bool.false_eq_true, if_false]
  have hval : ∀ (b : Bool) (w' : World),
      (if b then childValidate w' else w').parent.core = w'.parent.core := by
    intro b w'
    split
    · exact congrArg Prod.fst (worldCore_childValidate w')
    · rfl
  rw [hval]
  have hfold := foldlPreserves (fun x : World => x.parent.core)
    (fun wa kk => (childSetValue wa kk (alGet vals kk) false isd nc false false).1)
    (fun x b => pcore_childSetValue_npfalse ..)
  simp only [World.log]
  exact hfold _ _

theorem pvalues_parentSetValueInternal (w : World) (k : String) (v : Option JSVal)
    (d : Option Bool) (val isd nc np fa : Bool) :
    (parentSetValueInternal w k v d val isd nc np fa).parent.values =
      (formWrite w.parent k v d isd).values := by
  unfold parentSetValueInternal
  simp only []
  have hval : ∀ (b : Bool) (w' : World),
      (if b then parentValidate w' else w').parent.values = w'.parent.values := by
    intro b w'
    split
    · exact congrArg (fun fc => fc.values) (congrArg Prod.fst (worldCore_parentValidate w'))
    · rfl
  rw [hval]
  have hlog : ∀ (b : Bool) (w' : World) (es : List Event),
      (if b then w'.log es else w').parent.values = w'.parent.values := by
    intro b w' es
    split <;> rfl
  rw [hlog]
  simp only [World.log]
  cases nc
  · rfl
  · cases v with
    | none => rfl
    | some vv =>
      rcases hc : w.child with _ | ⟨name, cf⟩
      · rfl
      · by_cases hk : name = k
        · subst hk
          simp only [eq_self_iff_true, if_true]
          have hcs := pcore_childSetValues_npfalse
            ({ w with parent := formWrite w.parent name (some vv) d isd })
            (jsFields vv) isd true
          rw [hc] at hcs
          exact congrArg (fun fc => fc.values) hcs
        · simp only [hk, if_false]
          split <;> rfl

theorem pcore_parentSetValueInternal_nochild (w : World) (k : String)
    (v : Option JSVal) (d : Option Bool) (val isd nc np fa : Bool)
    (hch : childKeyOf w ≠ some k) :
    (parentSetValueInternal w k v d val isd nc np fa).parent.core =
      (formWrite w.parent k v d isd).core := by
  unfold parentSetValueInternal
  simp only []
  have hval : ∀ (b : Bool) (w' : World),
      (if b then parentValidate w' else w').parent.core = w'.parent.core := by
    intro b w'
    split
    · exact congrArg Prod.fst (worldCore_parentValidate w')
    · rfl
  rw [hval]
  have hlog : ∀ (b : Bool) (w' : World) (es : List Event),
      (if b then w'.log es else w').parent.core = w'.parent.core := by
    intro b w' es
    split <;> rfl
  rw [hlog]
  simp only [World.log]
  cases nc
  · rfl
  · cases v with
    | none => rfl
    | some vv =>
      rcases hc : w.child with _ | ⟨name, cf⟩
      · rfl
      · have hk : ¬ name = k := by
          intro h
          exact hch (by simp [childKeyOf, hc, h])
        simp only [hk, if_false]
        split <;> rfl

/-- Claim C9, counterexample: `null` is neither an ordered sequence (array)
nor a keyed composite (object), yet `memberCopy null` does not raise the
"unsupported value shape" error — `typeof null` is `"object"`, so the spread
copy succeeds and yields an empty object. -/
theorem claim_C9_counterexample :
    memberCopy JSVal.null = Except.ok (JSVal.obj [])
      ∧ jsIsArray JSVal.null = false
      ∧ (∀ l : List (String × JSVal), JSVal.null ≠ JSVal.obj l) :=
  ⟨rfl, rfl, fun l h => JSVal.noConfusion h⟩

/-- Claim C9 (amended): `memberCopy` raises the "unsupported value shape"
error exactly for values that are not arrays and not of JavaScript object
type; arrays and objects are shallow-copied successfully.  Since `typeof null`
is `"object"`, `null` is copied (to an empty object) rather than rejected. -/
theorem claim_C9_amended (v : JSVal) :
    (memberCopy v = Except.error "Can only memberCopy() arrays and objects."
        ↔ jsIsArray v = false ∧ jsTypeOf v ≠ "object")
      ∧ (jsIsArray v = true ∨ jsTypeOf v = "object" →
          ∃ c, memberCopy v = Except.ok c) := by
  cases v <;> simp [memberCopy, jsIsArray, jsTypeOf]

/-- Witness for the amended C9 statement at the scalar `3`. -/
theorem claim_C9_amended_witness :
    (memberCopy (JSVal.num 3) = Except.error "Can only memberCopy() arrays and objects."
        ↔ jsIsArray (JSVal.num 3) = false ∧ jsTypeOf (JSVal.num 3) ≠ "object")
      ∧ (jsIsArray (JSVal.num 3) = true ∨ jsTypeOf (JSVal.num 3) = "object" →
          ∃ c, memberCopy (JSVal.num 3) = Except.ok c) :=
  claim_C9_amended (JSVal.num 3)

/-- Claim C10: `setValue(key, null)` is treated as a composite write because
`typeof null` is `"object"`: the scalar short-circuit is skipped and the call
reports a change (`true`) even when the stored value is already `null`; with
default flags on a node with no child and no validator, the value is written
and the field-scoped and "any" observers fire. -/
theorem claim_C10 (w : World) (key : String) (validate isDefault nc np fa : Bool)
    (hch : w.child = none) (hval : w.parent.validator = none) :
    (parentSetValue w key (some .null) validate isDefault nc np fa).2 = true
      ∧ alGet ((parentSetValue w key (some .null) true false true true true).1.parent.values)
          key = some JSVal.null
      ∧ (parentSetValue w key (some .null) true false true true true).1.trace =
          w.trace ++ fieldFireEvents w.parent .parentNode key false
            ++ anyFireEvents w.parent .parentNode false := by
  refine ⟨rfl, ?_, ?_⟩
  · have h := pvalues_parentSetValueInternal w key (some .null) none true false true true true
    show alGet ((parentSetValueInternal w key (some .null) none
      true false true true true).parent.values) key = some JSVal.null
    rw [h]
    simp [valueWrite, alGet_alSet]
  · show (parentSetValueInternal w key (some .null) none
      true false true true true).trace = _
    unfold parentSetValueInternal
    simp [hch, hval, World.log, List.append_assoc]

/-- Witness for C10 on a one-field form whose value is already `null`. -/
theorem claim_C10_witness :
    (parentSetValue { parent := exNullForm, child := none, trace := [] }
        "n" (some .null) true false true true true).2 = true
      ∧ alGet ((parentSetValue { parent := exNullForm, child := none, trace := [] }
          "n" (some .null) true false true true true).1.parent.values)
          "n" = some JSVal.null
      ∧ (parentSetValue { parent := exNullForm, child := none, trace := [] }
          "n" (some .null) true false true true true).1.trace =
          [] ++ fieldFireEvents exNullForm .parentNode "n" false
            ++ anyFireEvents exNullForm .parentNode false :=
  claim_C10 _ "n" true false true true true rfl rfl

theorem parentSetValue_scalar_noop (w : World) (key : String) (v : Option JSVal)
    (validate isd nc np fa : Bool) (hno : jsTypeOfOpt v ≠ "object")
    (heq : jsStrictEqOpt (alGet (if isd then w.parent.defaultValues
      else w.parent.values) key) v = true) :
    parentSetValue w key v validate isd nc np fa = (w, false) := by
  unfold parentSetValue
  simp only [hno, if_false]
  cases isd <;> simp_all

theorem parentSetValue_scalar_written (w : World) (key : String) (v : Option JSVal)
    (validate nc np fa : Bool) (hno : jsTypeOfOpt v ≠ "object")
    (hne : jsStrictEqOpt (alGet w.parent.values key) v = false) :
    jsStrictEqOpt
      (alGet (parentSetValue w key v validate false nc np fa).1.parent.values key) v
        = true := by
  unfold parentSetValue
  simp only [hno, if_false, hne, Bool.false_eq_true, Bool.and_false, Bool.false_or,
    Bool.not_false, Bool.true_and, Bool.false_and]
  have h := pvalues_parentSetValueInternal w key v
    (some !jsStrictEqOpt v (alGet w.parent.defaultValues key)) validate false nc np fa
  rw [h]
  cases v with
  | none => simp [valueWrite, alGet_alDel, jsStrictEqOpt]
  | some vv =>
      simp only [valueWrite, formWrite_values_false, alGet_alSet]
      exact jsStrictEqOpt_refl_scalar (some vv) hno

/-- Claim C5: a scalar (non-object-typed) write whose value is `===` to the
value stored on the written side is a complete no-op — it returns `false` and
leaves the whole world (state and trace, hence observers) untouched; calling
`setValue` twice in a row with the same scalar makes the second call such a
no-op; composite (object-typed) values always proceed and return `true`. -/
theorem claim_C5 (w : World) (key : String) (v : Option JSVal)
    (validate isDefault nc np fa : Bool) :
    (jsTypeOfOpt v ≠ "object" →
        jsStrictEqOpt (alGet (if isDefault then w.parent.defaultValues
          else w.parent.values) key) v = true →
        parentSetValue w key v validate isDefault nc np fa = (w, false))
      ∧ (jsTypeOfOpt v ≠ "object" →
          parentSetValue (parentSetValue w key v true false true true true).1
              key v true false true true true
            = ((parentSetValue w key v true false true true true).1, false))
      ∧ (jsTypeOfOpt v = "object" →
          (parentSetValue w key v validate isDefault nc np fa).2 = true) := by
  refine ⟨parentSetValue_scalar_noop w key v validate isDefault nc np fa, ?_, ?_⟩
  · intro hno
    cases hsc : jsStrictEqOpt (alGet w.parent.values key) v with
    | true =>
        have h1 := parentSetValue_scalar_noop w key v true false true true true hno
          (by simpa using hsc)
        rw [h1]
        exact parentSetValue_scalar_noop w key v true false true true true hno
          (by simpa using hsc)
    | false =>
        have h2 := parentSetValue_scalar_written w key v true true true true hno hsc
        exact parentSetValue_scalar_noop _ key v true false true true true hno
          (by simpa using h2)
  · intro hobj
    unfold parentSetValue
    simp [hobj]

/-- Witness for C5 on a one-field form holding the number `5`. -/
theorem claim_C5_witness :
    (jsTypeOfOpt (some (JSVal.num 5)) ≠ "object" →
        jsStrictEqOpt (alGet (if false then exNumWorld.parent.defaultValues
          else exNumWorld.parent.values) "n") (some (JSVal.num 5)) = true →
        parentSetValue exNumWorld "n" (some (JSVal.num 5)) true false true true true
          = (exNumWorld, false))
      ∧ (jsTypeOfOpt (some (JSVal.num 5)) ≠ "object" →
          parentSetValue (parentSetValue exNumWorld
              "n" (some (JSVal.num 5)) true false true true true).1
              "n" (some (JSVal.num 5)) true false true true true
            = ((parentSetValue exNumWorld
                "n" (some (JSVal.num 5)) true false true true true).1, false))
      ∧ (jsTypeOfOpt (some (JSVal.num 5)) = "object" →
          (parentSetValue exNumWorld "n" (some (JSVal.num 5))
              true false true true true).2 = true) :=
  claim_C5 exNumWorld "n" (some (JSVal.num 5)) true false true true true

/-- Claim C4, counterexample: writing the composite `{x: 1}` under key `"k"`
into an empty form is not a short-circuited scalar no-op (the call returns
`true` and the written side now differs from the other side), yet
`dirtyMap["k"]` is not recomputed or stored — `setValue` passes
`dirty = undefined` for object-typed values, so `dirtyMap` has no entry for
`"k"` after the call. -/
theorem claim_C4_counterexample :
    (parentSetValue exEmptyWorld "k" (some (.obj [("x", .num 1)]))
        true false true true true).2 = true
      ∧ alGet (parentSetValue exEmptyWorld "k" (some (.obj [("x", .num 1)]))
          true false true true true).1.parent.values "k" = some (.obj [("x", .num 1)])
      ∧ alGet (parentSetValue exEmptyWorld "k" (some (.obj [("x", .num 1)]))
          true false true true true).1.parent.dirtyMap "k" = none := by
  refine ⟨rfl, rfl, rfl⟩

/-- Claim C4 (amended): for scalar writes that are not short-circuited (with
no child registered at the key), `setValue` recomputes `dirtyMap[key]` as
"the newly written side differs from the other side" and stores it; for
composite (object-typed) writes `setValue` passes no dirty flag, so
`dirtyMap[key]` is left unchanged (unless downward propagation into a child at
that key overwrites it with the child's aggregated dirty). -/
theorem claim_C4_amended (w : World) (key : String) (v : Option JSVal)
    (validate isDefault nc np fa : Bool) (hch : childKeyOf w ≠ some key) :
    (jsTypeOfOpt v ≠ "object" →
        jsStrictEqOpt (alGet (if isDefault then w.parent.defaultValues
          else w.parent.values) key) v = false →
        alGet (parentSetValue w key v validate isDefault nc np fa).1.parent.dirtyMap key
          = some (!jsStrictEqOpt v (alGet (if isDefault then w.parent.values
              else w.parent.defaultValues) key)))
      ∧ (jsTypeOfOpt v = "object" →
          alGet (parentSetValue w key v validate isDefault nc np fa).1.parent.dirtyMap key
            = alGet w.parent.dirtyMap key) := by
  constructor
  · intro hno hne
    unfold parentSetValue
    simp only [hno, if_false]
    cases isDefault
    · simp only [Bool.false_eq_true, if_false] at hne ⊢
      simp only [hne, Bool.false_and, Bool.and_false, Bool.false_or, Bool.not_false,
        Bool.not_true, Bool.true_and, Bool.false_eq_true, if_false]
      have h := pcore_parentSetValueInternal_nochild w key v
        (some !jsStrictEqOpt v (alGet w.parent.defaultValues key))
        validate false nc np fa hch
      have h3 : (parentSetValueInternal w key v
          (some !jsStrictEqOpt v (alGet w.parent.defaultValues key))
          validate false nc np fa).parent.dirtyMap =
          (formWrite w.parent key v
            (some !jsStrictEqOpt v (alGet w.parent.defaultValues key)) false).dirtyMap :=
        congrArg (fun fc => fc.dirtyMap) h
      rw [h3, formWrite_dirtyMap_some, alGet_alSet]
    · simp only [if_true] at hne ⊢
      simp only [hne, Bool.false_and, Bool.and_false, Bool.false_or, Bool.or_false,
        Bool.not_false, Bool.not_true, Bool.true_and, Bool.false_eq_true, if_false]
      have h := pcore_parentSetValueInternal_nochild w key v
        (some !jsStrictEqOpt v (alGet w.parent.values key))
        validate true nc np fa hch
      have h3 : (parentSetValueInternal w key v
          (some !jsStrictEqOpt v (alGet w.parent.values key))
          validate true nc np fa).parent.dirtyMap =
          (formWrite w.parent key v
            (some !jsStrictEqOpt v (alGet w.parent.values key)) true).dirtyMap :=
        congrArg (fun fc => fc.dirtyMap) h
      rw [h3, formWrite_dirtyMap_some, alGet_alSet]
  · intro hobj
    unfold parentSetValue
    simp only [hobj, if_true]
    have h := pcore_parentSetValueInternal_nochild w key v none
      validate isDefault nc np fa hch
    have h3 : (parentSetValueInternal w key v none
        validate isDefault nc np fa).parent.dirtyMap =
        (formWrite w.parent key v none isDefault).dirtyMap :=
      congrArg (fun fc => fc.dirtyMap) h
    rw [h3, formWrite_dirtyMap_none]

/-- Witness for the amended C4 on the empty world, writing the scalar `5` and
separately the composite `{x: 1}`. -/
theorem claim_C4_amended_witness :
    ((jsTypeOfOpt (some (JSVal.num 5)) ≠ "object" →
        jsStrictEqOpt (alGet (if false then exEmptyWorld.parent.defaultValues
          else exEmptyWorld.parent.values) "k") (some (JSVal.num 5)) = false →
        alGet (parentSetValue exEmptyWorld "k" (some (JSVal.num 5))
            true false true true true).1.parent.dirtyMap "k"
          = some (!jsStrictEqOpt (some (JSVal.num 5))
              (alGet (if false then exEmptyWorld.parent.values
                else exEmptyWorld.parent.defaultValues) "k")))
      ∧ (jsTypeOfOpt (some (JSVal.num 5)) = "object" →
          alGet (parentSetValue exEmptyWorld "k" (some (JSVal.num 5))
              true false true true true).1.parent.dirtyMap "k"
            = alGet exEmptyWorld.parent.dirtyMap "k"))
    ∧ alGet (parentSetValue exEmptyWorld "k" (some (JSVal.num 5))
        true false true true true).1.parent.dirtyMap "k" = some true :=
  ⟨claim_C4_amended exEmptyWorld "k" (some (JSVal.num 5)) true false true true true
      (by simp [childKeyOf, exEmptyWorld]),
    by
      have h := (claim_C4_amended exEmptyWorld "k" (some (JSVal.num 5))
        true false true true true (by simp [childKeyOf, exEmptyWorld])).1
        (by simp [jsTypeOfOpt, jsTypeOf]) rfl
      simpa using h⟩

/-- Claim C3, counterexample: with current values `{a: 1}` and incoming
`{b: 2}` the union of keys is `{a, b}`, but `setValues` iterates only the
incoming key list (the two lists have equal length and the tie goes to the
incoming one): `setValue` is invoked for "b" and never for "a", and the stale
key "a" survives in the values container instead of being removed. -/
theorem claim_C3_counterexample :
    (parentSetValues exAWorld [("b", JSVal.num 2)] false true true).trace.countP
        (fun e => e == Event.called .parentNode (.setValueAt "a")) = 0
      ∧ (parentSetValues exAWorld [("b", JSVal.num 2)] false true true).trace.countP
          (fun e => e == Event.called .parentNode (.setValueAt "b")) = 1
      ∧ alKeys (parentSetValues exAWorld [("b", JSVal.num 2)]
          false true true).parent.values = ["a", "b"] :=
  ⟨rfl, rfl, rfl⟩

theorem countP_beqKeyed (f : String → Event)
    (hf : ∀ k k', (f k == f k') = (k == k')) (l : List String) (key' : String) :
    l.countP (fun k => f k == f key') = l.count key' := by
  induction l with
  | nil => rfl
  | cons k ks ih =>
      rw [List.countP_cons, List.count_cons, ih, hf]

theorem beq_called_setValueAt (k k' : String) :
    ((Event.called .parentNode (.setValueAt k))
        == Event.called .parentNode (.setValueAt k')) = (k == k') := by
  by_cases h : k = k'
  · subst h
    simp
  · have h1 : ((Event.called .parentNode (.setValueAt k))
        == Event.called .parentNode (.setValueAt k')) = false := by
      simp [h]
    have h2 : (k == k') = false := by simp [h]
    rw [h1, h2]

theorem beq_called_setErrorAt (k k' : String) :
    ((Event.called .parentNode (.setErrorAt k))
        == Event.called .parentNode (.setErrorAt k')) = (k == k') := by
  by_cases h : k = k'
  · subst h
    simp
  · have h1 : ((Event.called .parentNode (.setErrorAt k))
        == Event.called .parentNode (.setErrorAt k')) = false := by
      simp [h]
    have h2 : (k == k') = false := by simp [h]
    rw [h1, h2]

/-- Claim C3 (amended): `setValues` iterates over whichever key list is longer
— the existing target container's or the incoming container's, the incoming
one on ties — invoking `setValue` exactly once per occurrence of a key in that
list; `setErrors` does the same over the longer of the currently-set error key
list and the incoming error key list, with ties going to the currently-set
one.  Neither loop processes the union of the two key sets. -/
theorem claim_C3_amended (w : World) (vals errors : List (String × JSVal))
    (isDefault nc np : Bool) (key' : String) :
    (parentSetValues w vals isDefault nc np).trace.countP
        (fun e => e == Event.called .parentNode (.setValueAt key'))
      = w.trace.countP (fun e => e == Event.called .parentNode (.setValueAt key'))
        + (if (alKeys (if isDefault then w.parent.defaultValues else w.parent.values)).length
              > (alKeys vals).length
            then alKeys (if isDefault then w.parent.defaultValues else w.parent.values)
            else alKeys vals).count key'
    ∧ (parentSetErrors w errors nc np).trace.countP
        (fun e => e == Event.called .parentNode (.setErrorAt key'))
      = w.trace.countP (fun e => e == Event.called .parentNode (.setErrorAt key'))
        + (if (alKeys errors).length > (alKeys w.parent.errorMap).length
            then alKeys errors else alKeys w.parent.errorMap).count key' := by
  constructor
  · have h := tcount_parentSetValues_delta
      (fun e => e == Event.called .parentNode (.setValueAt key'))
      (fun n k id => rfl) (fun n id b => rfl) rfl (fun k => rfl) rfl
      w vals isDefault nc np
    rw [countP_beqKeyed (fun k => Event.called .parentNode (.setValueAt k))
      beq_called_setValueAt] at h
    exact h
  · have h := tcount_parentSetErrors_delta
      (fun e => e == Event.called .parentNode (.setErrorAt key'))
      (fun n k id => rfl) (fun n id b => rfl) rfl
      w errors nc np
    rw [countP_beqKeyed (fun k => Event.called .parentNode (.setErrorAt k))
      beq_called_setErrorAt] at h
    exact h

/-- Claim C6, counterexample: `setErrors` is a bulk-replace path, but it
invokes the "any" observers with `setValuesWasUsed = false` — the flag is true
only for `setValues`.  On a node with one "any" listener, applying
`setErrors({name: "required"})` produces exactly one "any" invocation carrying
`false`. -/
theorem claim_C6_counterexample :
    (parentSetErrors exAnyWorld [("name", JSVal.str "required")] true true).trace
      = [Event.called .parentNode (.setErrorAt "name"),
         Event.anyFired .parentNode "anyid" false] :=
  rfl

/-- Claim C6 (amended): field-scoped observers always receive
`setValuesWasUsed = false`, on bulk paths included — neither `setValues` nor
`setErrors` ever emits a field-scoped invocation with the flag set; the flag is
true only in the single "any" fan-out of `setValues`.  On `{a:1,b:2,c:3}` with
per-field listeners and an "any" listener, `setValues` fires each per-field
listener exactly once (with `false`) and the "any" listener exactly once with
`true`, while `setErrors({name:"required"})` fires the "any" listener with
`false`. -/
theorem claim_C6_amended (w : World) (vals errors : List (String × JSVal))
    (isDefault nc np : Bool) :
    tcount isBulkFieldFire (parentSetValues w vals isDefault nc np)
        = tcount isBulkFieldFire w
      ∧ tcount isBulkFieldFire (parentSetErrors w errors nc np)
          = tcount isBulkFieldFire w
      ∧ (parentSetValues exABCWorld
            [("a", JSVal.num 1), ("b", JSVal.num 2), ("c", JSVal.num 3)]
            false true true).trace
          = [Event.called .parentNode (.setValueAt "a"),
             Event.fieldFired .parentNode "a" "la" false,
             Event.called .parentNode (.setValueAt "b"),
             Event.fieldFired .parentNode "b" "lb" false,
             Event.called .parentNode (.setValueAt "c"),
             Event.fieldFired .parentNode "c" "lc" false,
             Event.anyFired .parentNode "anyid" true]
      ∧ (parentSetErrors exAnyWorld [("name", JSVal.str "required")] true true).trace
          = [Event.called .parentNode (.setErrorAt "name"),
             Event.anyFired .parentNode "anyid" false] := by
  refine ⟨?_, ?_, rfl, rfl⟩
  · rw [tcount_parentSetValues_delta isBulkFieldFire
      (fun n k id => rfl) (fun n id b => rfl) rfl (fun k => rfl) rfl]
    have hz : ∀ l : List String,
        l.countP (fun k => isBulkFieldFire (.called .parentNode (.setValueAt k))) = 0 :=
      fun l => List.countP_eq_zero.mpr (fun a ha => by simp [isBulkFieldFire])
    rw [hz]
    simp
  · rw [tcount_parentSetErrors_delta isBulkFieldFire
      (fun n k id => rfl) (fun n id b => rfl) rfl]
    have hz : ∀ l : List String,
        l.countP (fun k => isBulkFieldFire (.called .parentNode (.setErrorAt k))) = 0 :=
      fun l => List.countP_eq_zero.mpr (fun a ha => by simp [isBulkFieldFire])
    rw [hz]
    simp

theorem worldCore_extract (r : World) (P : Form) (name : String) (c2 : Form)
    (h : worldCore r = (P.core, some (name, c2.core))) :
    r.parent.values = P.values ∧ r.parent.dirtyMap = P.dirtyMap
      ∧ (childFormD r).values = c2.values ∧ (childFormD r).dirtyMap = c2.dirtyMap := by
  have h1 : r.parent.core = P.core := congrArg Prod.fst h
  have h2 : r.child.map (fun p => (p.1, p.2.core)) = some (name, c2.core) :=
    congrArg Prod.snd h
  refine ⟨congrArg FormCore.values h1, congrArg FormCore.dirtyMap h1, ?_, ?_⟩
  · rcases hr : r.child with _ | ⟨n2, cf⟩
    · rw [hr] at h2
      exact absurd h2 (by simp)
    · rw [hr] at h2
      simp only [Option.map_some', Option.some.injEq, Prod.mk.injEq] at h2
      have := congrArg FormCore.values h2.2
      simpa [childFormD, hr] using this
  · rcases hr : r.child with _ | ⟨n2, cf⟩
    · rw [hr] at h2
      exact absurd h2 (by simp)
    · rw [hr] at h2
      simp only [Option.map_some', Option.some.injEq, Prod.mk.injEq] at h2
      have := congrArg FormCore.dirtyMap h2.2
      simpa [childFormD, hr] using this

/-- Upward synchronization of a non-short-circuited child-side `setValue` with
default flags: the parent's values container holds, under the child's field
name, (a copy of) the child's values container, the written entry is present,
and the parent's `dirtyMap` entry for the child's field equals the child's
aggregated dirty flag.  Holds for arbitrary validators on both nodes. -/
theorem childSetValue_upSync (w : World) (name : String) (c : Form) (key : String) (v : JSVal)
    (hc : w.child = some (name, c))
    (hns : jsTypeOf v = "object"
      ∨ jsStrictEqOpt (alGet c.values key) (some v) = false) :
    alGet (childSetValue w key (some v) true false true true true).1.parent.values name
        = some (.obj (childFormD
            (childSetValue w key (some v) true false true true true).1).values)
      ∧ alGet (childFormD
            (childSetValue w key (some v) true false true true true).1).values key
          = some v
      ∧ alGet
            (childSetValue w key (some v) true false true true true).1.parent.dirtyMap
            name
          = some (formDirty (childFormD
              (childSetValue w key (some v) true false true true true).1)) := by
  have hex : ∃ D : Option Bool,
      worldCore (childSetValue w key (some v) true false true true true).1
        = ((formWrite w.parent name
              (some (.obj (formWrite c key (some v) D false).values))
              (some (formDirty (formWrite c key (some v) D false))) false).core,
            some (name, (formWrite c key (some v) D false).core)) := by
    unfold childSetValue
    simp only []
    by_cases hobj : jsTypeOfOpt (some v) = "object"
    · simp only [hobj, if_true]
      exact ⟨none,
        worldCore_childSetValueInternal_sync w name c key (some v) none true true hc⟩
    · have hsc : jsStrictEqOpt (alGet (childFormD w).values key) (some v) = false := by
        rcases hns with h | h
        · exact absurd h hobj
        · rw [childFormD, hc]
          exact h
      simp only [hobj, if_false, Bool.false_and, Bool.not_false, Bool.true_and, hsc,
        Bool.false_or, Bool.false_eq_true, if_false]
      exact ⟨some (!jsStrictEqOpt (some v) (alGet (childFormD w).defaultValues key)),
        worldCore_childSetValueInternal_sync w name c key (some v) _ true true hc⟩
  obtain ⟨D, hmain⟩ := hex
  obtain ⟨hpv, hpd, hcv2, hcd⟩ := worldCore_extract _ _ _ _ hmain
  refine ⟨?_, ?_, ?_⟩
  · rw [hpv, hcv2]
    simp only [formWrite_values_false, valueWrite]
    rw [alGet_alSet]
  · rw [hcv2]
    simp only [formWrite_values_false, valueWrite]
    rw [alGet_alSet]
  · rw [hpd]
    simp only [formWrite_dirtyMap_some]
    rw [alGet_alSet]
    have : formDirty (childFormD
        (childSetValue w key (some v) true false true true true).1)
        = formDirty (formWrite c key (some v) D false) := by
      simp [formDirty, hcd]
    rw [this]

/-- Claim C2: after a child-side `setValue(key, v)` with default flags that is
not a short-circuited scalar no-op, the parent's values container holds, under
the child's field name, (a copy of) the child's values container — so in
particular its entry at `key` is `v` — and the parent's `dirtyMap` entry for
the child's field equals the child's aggregated dirty flag.  This holds for
arbitrary validators on both nodes. -/
theorem claim_C2 (w : World) (name : String) (c : Form) (key : String) (v : JSVal)
    (hc : w.child = some (name, c))
    (hns : jsTypeOf v = "object"
      ∨ jsStrictEqOpt (alGet c.values key) (some v) = false) :
    alGet (childSetValue w key (some v) true false true true true).1.parent.values name
        = some (.obj (childFormD
            (childSetValue w key (some v) true false true true true).1).values)
      ∧ alGet (childFormD
            (childSetValue w key (some v) true false true true true).1).values key
          = some v
      ∧ alGet
            (childSetValue w key (some v) true false true true true).1.parent.dirtyMap
            name
          = some (formDirty (childFormD
              (childSetValue w key (some v) true false true true true).1)) :=
  childSetValue_upSync w name c key v hc hns

/-- Witness for C2: childNode.setValue("city", "Paris") puts the child's
container (with "Paris") into parent.values.address and the child's dirty
flag into parent.dirtyMap.address. -/
theorem claim_C2_witness :
    alGet (childSetValue exAddrWorld "city" (some (.str "Paris"))
        true false true true true).1.parent.values "address"
        = some (.obj (childFormD (childSetValue exAddrWorld "city"
            (some (.str "Paris")) true false true true true).1).values)
      ∧ alGet (childFormD (childSetValue exAddrWorld "city" (some (.str "Paris"))
            true false true true true).1).values "city"
          = some (.str "Paris")
      ∧ alGet (childSetValue exAddrWorld "city" (some (.str "Paris"))
            true false true true true).1.parent.dirtyMap "address"
          = some (formDirty (childFormD (childSetValue exAddrWorld "city"
              (some (.str "Paris")) true false true true true).1)) :=
  claim_C2 exAddrWorld "address" exAddrChild "city" (.str "Paris") rfl (Or.inr rfl)

/-- Claim C7, counterexample: starting from a synchronized state, the public
parent-side mutation `setValue("address", {b: 2})` leaves the two nodes
desynchronized: the parent's field becomes `{b: 2}` while the child — whose
`setValues` iterates only the incoming key list on ties — keeps the stale key
and ends with `{a: 1, b: 2}`. -/
theorem claim_C7_counterexample :
    alGet (parentSetValue exShrinkWorld "address" (some (.obj [("b", .num 2)]))
        true false true true true).1.parent.values "address"
        = some (.obj [("b", JSVal.num 2)])
      ∧ (childFormD (parentSetValue exShrinkWorld "address"
          (some (.obj [("b", .num 2)])) true false true true true).1).values
          = [("a", JSVal.num 1), ("b", JSVal.num 2)]
      ∧ (some (JSVal.obj [("b", JSVal.num 2)]) : Option JSVal)
          ≠ some (JSVal.obj [("a", JSVal.num 1), ("b", JSVal.num 2)]) := by
  refine ⟨rfl, rfl, ?_⟩
  simp

/-- Claim C7 (amended): when the parent's field holds a composite at Child
Node construction, the child seeds exact copies of the parent's values and
defaults at that field, so the synchronization invariant holds right after
construction; and a child-side `setValue` (not short-circuited) re-establishes
`parent.values[fieldKey] = copy of child.values`.  The invariant is not
preserved by every public mutation (see the parent-side bulk-write
counterexample). -/
theorem claim_C7_amended (p : Form) (name : String)
    (lv ld ls : List (String × JSVal))
    (hv : alGet p.values name = some (.obj lv))
    (hd : alGet p.defaultValues name = some (.obj ld))
    (hs : p.state = .obj ls) :
    (∃ w', mkChildFormState p name = Except.ok w'
        ∧ w'.parent = p
        ∧ childKeyOf w' = some name
        ∧ (childFormD w').values = lv
        ∧ (childFormD w').defaultValues = ld
        ∧ alGet w'.parent.values name = some (.obj (childFormD w').values))
      ∧ (∀ (w : World) (cn : String) (c : Form) (key : String) (v : JSVal),
          w.child = some (cn, c) →
          (jsTypeOf v = "object"
            ∨ jsStrictEqOpt (alGet c.values key) (some v) = false) →
          alGet (childSetValue w key (some v)
              true false true true true).1.parent.values cn
            = some (.obj (childFormD (childSetValue w key (some v)
                true false true true true).1).values)) := by
  constructor
  · refine ⟨seededChildWorld p name lv ld ls, ?_, rfl, rfl, rfl, rfl, ?_⟩
    · unfold mkChildFormState mkFormState
      rw [hv, hd, hs]
      rfl
    · exact hv
  · intro w cn c key v hc hns
    exact (childSetValue_upSync w cn c key v hc hns).1

/-- Witness for the amended C7 at a parent with composite field "address". -/
theorem claim_C7_amended_witness :
    (∃ w', mkChildFormState exC7Parent "address" = Except.ok w'
        ∧ w'.parent = exC7Parent
        ∧ childKeyOf w' = some "address"
        ∧ (childFormD w').values = [("city", JSVal.str "x")]
        ∧ (childFormD w').defaultValues = [("city", JSVal.str "y")]
        ∧ alGet w'.parent.values "address" = some (.obj (childFormD w').values))
      ∧ (∀ (w : World) (cn : String) (c : Form) (key : String) (v : JSVal),
          w.child = some (cn, c) →
          (jsTypeOf v = "object"
            ∨ jsStrictEqOpt (alGet c.values key) (some v) = false) →
          alGet (childSetValue w key (some v)
              true false true true true).1.parent.values cn
            = some (.obj (childFormD (childSetValue w key (some v)
                true false true true true).1).values)) :=
  claim_C7_amended exC7Parent "address" [("city", JSVal.str "x")]
    [("city", JSVal.str "y")] [] rfl rfl rfl

theorem filter_fieldFireEvents_self (f : Form) (name : String) :
    (fieldFireEvents f .parentNode name false).filter (isParentFieldFireAt name)
      = fieldFireEvents f .parentNode name false := by
  rw [List.filter_eq_self]
  intro e he
  unfold fieldFireEvents at he
  simp only [List.mem_map] at he
  obtain ⟨id, hid, rfl⟩ := he
  simp [isParentFieldFireAt]

theorem filter_fieldFireEvents_child (f : Form) (k name : String) (b : Bool) :
    (fieldFireEvents f .childNode k b).filter (isParentFieldFireAt name) = [] := by
  rw [List.filter_eq_nil_iff]
  intro e he
  unfold fieldFireEvents at he
  simp only [List.mem_map] at he
  obtain ⟨id, hid, rfl⟩ := he
  simp [isParentFieldFireAt]

theorem filter_anyFireEvents (f : Form) (n : NodeTag) (b : Bool) (name : String) :
    (anyFireEvents f n b).filter (isParentFieldFireAt name) = [] := by
  rw [List.filter_eq_nil_iff]
  intro e he
  unfold anyFireEvents at he
  simp only [List.mem_map] at he
  obtain ⟨id, hid, rfl⟩ := he
  simp [isParentFieldFireAt]

/-- Claim C1, counterexample: when the parent has a validator, the parent's
processing of a child-side `setValue` does re-invoke a mutator of the
originating child — the upward write triggers parent validation, whose
`setErrors` calls `setError(fieldKey, ..., notifyChild = true)` and thereby
the child's `setErrors`; the parent-side field observers for the child's key
also fire three times rather than once. -/
theorem claim_C1_counterexample :
    tcount isCalledOnChild (childSetValue exValWorld "city" (some (.str "Paris"))
        true false true true true).1 = 1
      ∧ (childSetValue exValWorld "city" (some (.str "Paris"))
          true false true true true).1.trace.countP (isParentFieldFireAt "address") = 3
      ∧ (Event.called .childNode .setErrorsOp)
          ∈ (childSetValue exValWorld "city" (some (.str "Paris"))
              true false true true true).1.trace := by
  refine ⟨rfl, rfl, ?_⟩
  decide

/-- Claim C1 (amended): the upward value propagation passes
`notifyChild = false`, so a child-side `setValue` with default flags never
re-invokes the child's `setValues` (for arbitrary validators); when neither
node has a validator, the parent's processing invokes none of the child's
mutators at all, and the parent-side field observers for the child's key fire
exactly once (each registered listener is invoked exactly one time). -/
theorem claim_C1_amended (w : World) (name : String) (c : Form) (key : String)
    (v : Option JSVal) (hc : w.child = some (name, c)) :
    tcount isChildSetValuesCall (childSetValue w key v true false true true true).1
        = tcount isChildSetValuesCall w
      ∧ (c.validator = none → w.parent.validator = none →
          (childSetValue w key v true false true true true).2 = true →
          (childSetValue w key v true false true true true).1.trace.filter
              (isParentFieldFireAt name)
            = w.trace.filter (isParentFieldFireAt name)
              ++ ((alGet w.parent.listeners name).getD []).map
                  (fun id => .fieldFired .parentNode name id false)
            ∧ tcount isCalledOnChild
                (childSetValue w key v true false true true true).1
                = tcount isCalledOnChild w) := by
  constructor
  · exact tcount_childSetValue isChildSetValuesCall (fun n k id => rfl)
      (fun n id b => rfl) rfl (fun k => rfl) w key v true false true true true
  · intro hcv hpv hch
    have hex : ∃ d, (childSetValue w key v true false true true true).1
        = childSetValueInternal w key v d true false true true true := by
      unfold childSetValue
      simp only []
      by_cases hobj : jsTypeOfOpt v = "object"
      · exact ⟨none, by simp [hobj]⟩
      · cases hsc : jsStrictEqOpt (alGet (childFormD w).values key) v
        · exact ⟨some (!jsStrictEqOpt v (alGet (childFormD w).defaultValues key)),
            by simp [hobj, hsc]⟩
        · exfalso
          have hfalse : (childSetValue w key v true false true true true).2 = false := by
            unfold childSetValue
            simp [hobj, hsc]
          rw [hfalse] at hch
          exact Bool.noConfusion hch
    obtain ⟨d, hd⟩ := hex
    have ht := trace_childSetValueInternal_noval w name c key v d true true hc hcv hpv
    constructor
    · rw [hd]
      rw [show (childSetValueInternal w key v d true false true true true).trace.filter
            (isParentFieldFireAt name)
          = ((w.trace ++ fieldFireEvents c NodeTag.childNode key false
              ++ fieldFireEvents w.parent NodeTag.parentNode name false
              ++ anyFireEvents w.parent NodeTag.parentNode false
              ++ anyFireEvents c NodeTag.childNode false).filter
            (isParentFieldFireAt name)) from congrArg _ ht]
      simp only [List.filter_append, filter_fieldFireEvents_child,
        filter_fieldFireEvents_self, filter_anyFireEvents, List.append_nil]
      rfl
    · rw [hd, tcount, ht]
      simp only [List.countP_append,
        countP_fieldFireEvents isCalledOnChild (fun n k id => rfl) (fun n id b => rfl),
        countP_anyFireEvents isCalledOnChild (fun n k id => rfl) (fun n id b => rfl)]
      simp [tcount]

/-- Witness for the amended C1 on the two-node example world with no
validators: `childNode.setValue("city", "Paris")`. -/
theorem claim_C1_amended_witness :
    tcount isChildSetValuesCall (childSetValue exAddrWorld "city"
        (some (.str "Paris")) true false true true true).1
      = tcount isChildSetValuesCall exAddrWorld
    ∧ (childSetValue exAddrWorld "city" (some (.str "Paris"))
          true false true true true).1.trace.filter (isParentFieldFireAt "address")
        = exAddrWorld.trace.filter (isParentFieldFireAt "address")
          ++ ((alGet exAddrWorld.parent.listeners "address").getD []).map
              (fun id => .fieldFired .parentNode "address" id false)
    ∧ tcount isCalledOnChild (childSetValue exAddrWorld "city"
          (some (.str "Paris")) true false true true true).1
        = tcount isCalledOnChild exAddrWorld :=
  ⟨(claim_C1_amended exAddrWorld "address" exAddrChild "city"
      (some (.str "Paris")) rfl).1,
    ((claim_C1_amended exAddrWorld "address" exAddrChild "city"
      (some (.str "Paris")) rfl).2 rfl rfl rfl).1,
    ((claim_C1_amended exAddrWorld "address" exAddrChild "city"
      (some (.str "Paris")) rfl).2 rfl rfl rfl).2⟩

theorem childSetState_child (w : World) (st : JSVal) (nc np : Bool) :
    (childSetState w st nc np).child
      = w.child.map (fun q => (q.1, { q.2 with state := st })) := by
  unfold childSetState
  rcases hc : w.child with _ | ⟨name, cf⟩
  · simp [hc]
  · cases np
    · simp [World.log]
    · simp only [if_true]
      unfold childUpdateParentState parentSetStateNC
      simp [World.log]

theorem foldlChildNotify_none (st : JSVal) (nc np : Bool) :
    ∀ (l : List String) (a : World), a.child = none →
      l.foldl (fun wa k =>
        match wa.child with
        | some (name, _) => if name = k then childSetState wa st nc np else wa
        | none => wa) a = a := by
  intro l
  induction l with
  | nil => intro a ha; rfl
  | cons k ks ih =>
      intro a ha
      rw [List.foldl_cons]
      have hstep : (match a.child with
          | some (name, _) => if name = k then childSetState a st nc np else a
          | none => a) = a := by
        rw [ha]
      rw [hstep]
      exact ih a ha

theorem foldlChildNotify_some (st : JSVal) (np : Bool) (ck : String) :
    ∀ (l : List String) (a : World) (cf : Form), a.child = some (ck, cf) →
      ∃ cf', (l.foldl (fun wa k =>
          match wa.child with
          | some (name, _) => if name = k then childSetState wa st true np else wa
          | none => wa) a).child = some (ck, cf')
        ∧ (ck ∈ l → cf'.state = st) ∧ (ck ∉ l → cf' = cf) := by
  intro l
  induction l with
  | nil => intro a cf ha; exact ⟨cf, ha, fun h => absurd h (List.not_mem_nil ck), fun h => rfl⟩
  | cons k ks ih =>
      intro a cf ha
      rw [List.foldl_cons]
      by_cases hk : ck = k
      · subst hk
        have hstep : (match a.child with
            | some (name, _) => if name = ck then childSetState a st true np else a
            | none => a) = childSetState a st true np := by
          rw [ha]
          simp
        rw [hstep]
        have ha2 : (childSetState a st true np).child
            = some (ck, { cf with state := st }) := by
          rw [childSetState_child, ha]
          rfl
        obtain ⟨cf', h1, h2, h3⟩ := ih (childSetState a st true np)
          ({ cf with state := st }) ha2
        refine ⟨cf', h1, fun hmem => ?_, fun hmem => absurd (List.mem_cons_self ck ks) hmem⟩
        by_cases hks : ck ∈ ks
        · exact h2 hks
        · rw [h3 hks]
      · have hstep : (match a.child with
            | some (name, _) => if name = k then childSetState a st true np else a
            | none => a) = a := by
          rw [ha]
          simp [hk]
        rw [hstep]
        obtain ⟨cf', h1, h2, h3⟩ := ih a cf ha
        refine ⟨cf', h1, fun hmem => ?_, fun hmem => ?_⟩
        · rcases List.mem_cons.mp hmem with h | h
          · exact absurd h hk
          · exact h2 h
        · exact h3 (fun h => hmem (List.mem_cons_of_mem k h))

/-- Claim C8, counterexample: a listener registered under key "x" is not
notified by `setState` when "x" is absent from the values container — the
code fires field listeners only for `Object.keys(this.values)`.  Here the
values are `{a: 1}`, a subscription exists under "x", yet `setState` produces
no observer events at all. -/
theorem claim_C8_counterexample :
    alGet exXWorld.parent.listeners "x" = some ["lx"]
      ∧ (parentSetState exXWorld (.obj [("isSubmitting", .bool true)])
          true true).trace = [] :=
  ⟨rfl, rfl⟩

@[simp]
theorem fieldFireEvents_setState (f : Form) (st : JSVal) (n : NodeTag)
    (k : String) (b : Bool) :
    fieldFireEvents { f with state := st } n k b = fieldFireEvents f n k b := rfl

@[simp]
theorem anyFireEvents_setState (f : Form) (st : JSVal) (n : NodeTag) (b : Bool) :
    anyFireEvents { f with state := st } n b = anyFireEvents f n b := rfl

/-- Claim C8 (amended): `setState` fires field-scoped observers exactly for
the field keys currently present in the values container (then the "any"
observers); a listener under a key absent from values is not notified.  With
`notifyChild`, a child node registered under a key present in values receives
the new state value. -/
theorem claim_C8_amended (w : World) (st : JSVal) (np : Bool) :
    (w.child = none →
        (parentSetState w st true np).trace
          = w.trace
            ++ (alKeys w.parent.values).flatMap
                (fun k => fieldFireEvents w.parent .parentNode k false)
            ++ anyFireEvents w.parent .parentNode false
          ∧ (parentSetState w st true np).parent.state = st)
      ∧ (∀ ck cf, w.child = some (ck, cf) → ck ∈ alKeys w.parent.values →
          ∃ cf', (parentSetState w st true np).child = some (ck, cf')
            ∧ cf'.state = st) := by
  constructor
  · intro hch
    unfold parentSetState
    simp only []
    rw [foldlChildNotify_none st true np _ _ (by simp [hch])]
    constructor
    · simp [World.log, List.append_assoc]
    · simp [World.log]
  · intro ck cf hch hmem
    unfold parentSetState
    simp only []
    obtain ⟨cf', h1, h2, h3⟩ := foldlChildNotify_some st np ck (alKeys w.parent.values)
      ({ w with parent := { w.parent with state := st } }) cf (by simp [hch])
    refine ⟨cf', ?_, h2 hmem⟩
    simp only [World.log]
    exact h1

/-- Witness for the amended C8: the no-child world fires exactly the listeners
of its value keys, and the child of `exSubWorld` receives the new state. -/
theorem claim_C8_amended_witness :
    ((parentSetState exXWorld (.obj [("isSubmitting", .bool true)]) true true).trace
        = exXWorld.trace
          ++ (alKeys exXWorld.parent.values).flatMap
              (fun k => fieldFireEvents exXWorld.parent .parentNode k false)
          ++ anyFireEvents exXWorld.parent .parentNode false
      ∧ (parentSetState exXWorld (.obj [("isSubmitting", .bool true)])
          true true).parent.state = .obj [("isSubmitting", .bool true)])
    ∧ ∃ cf', (parentSetState exSubWorld (.obj [("isSubmitting", .bool true)])
          true true).child = some ("sub", cf')
        ∧ cf'.state = .obj [("isSubmitting", .bool true)] :=
  ⟨(claim_C8_amended exXWorld (.obj [("isSubmitting", .bool true)]) true).1 rfl,
    (claim_C8_amended exSubWorld (.obj [("isSubmitting", .bool true)]) true).2
      "sub" { emptyForm with values := [("q", JSVal.num 1)] } rfl (by decide)⟩
